import Mathlib

/-!
Shallow embedding of `amocrm-api-middleware` (files
`src/amocrm_api_middleware/oauth/client.py` and
`src/amocrm_api_middleware/_utils.py`) together with theorems settling the
frozen claims about its specification.

Modelling conventions:
* Python `str` values handled character-wise (JWT machinery) are `List Char`;
  strings only concatenated/compared as wholes (OAuth client fields, URLs)
  are Lean `String`.
* Byte strings (`bytes`) are `List Nat`, each entry < 256.
* Machine-level collaborators (the `requests` HTTP library, the clock) are
  passed in explicitly: HTTP responses as oracle arguments, the current UTC
  time as a `Nat` Unix timestamp truncated to seconds (matching
  `datetime.utcnow().strftime('%Y-%m-%d %H:%M:%S')`).
* Python exceptions are the `PyErr` inductive; fallible code returns
  `Except PyErr _`.  Each constructor mirrors an exception class actually
  raised by the code: `oauthError` is the repository's `OAuthError`,
  `valueError`/`typeError`/`keyError` are the builtin exceptions, and
  `httpError`/`requestException`/`missingSchema` are the raw
  `requests.HTTPError` / `requests.RequestException` / `requests.exceptions.MissingSchema`
  exceptions (the upload path calls `raise_for_status` without translating).
-/

/-- Python exception classes raised by the embedded code. -/
inductive PyErr where
  | oauthError (msg : String)
  | valueError
  | typeError
  | keyError
  | httpError (status : Nat)
  | requestException
  | missingSchema
  | attributeError
deriving DecidableEq, Repr

/-- `OAuthConfig` from `config.py` (imported by `client.py`): the three fields
read by `OAuthClient`. -/
structure OAuthConfig where
  client_id : String
  client_secret : String
  redirect_uri : String
deriving DecidableEq, Repr

/-- Mutable credential fields of `OAuthClient.__init__`. -/
structure ClientState where
  access_token : Option String
  refresh_token : Option String
  longlive_token : Option String
  api_key : Option String
  base_url : Option String
deriving DecidableEq, Repr

/-- The JSON body of a token-endpoint response, restricted to the fields the
client reads (`token_data["access_token"]`, `token_data.get("refresh_token")`). -/
structure TokenBody where
  access_token : Option String
  refresh_token : Option String
deriving DecidableEq, Repr

/-- Outcome of one `requests.post` round trip as observed by `_make_request`:
either a transport failure (`requests.RequestException`, message `msg`) or a
response carrying a status code, the parsed JSON body and the raw text. -/
inductive HttpResp where
  | transportError (msg : String)
  | response (status : Nat) (body : TokenBody) (text : String)
deriving DecidableEq, Repr

/-- Record of one POST request issued through `_make_post_request` (url and
form fields), used to observe which network calls a method performs. -/
structure PostCall where
  url : String
  data : List (String × String)
deriving DecidableEq, Repr

instance instDecEqExceptPy {α β : Type} [DecidableEq α] [DecidableEq β] :
    DecidableEq (Except α β) := fun x y =>
  match x, y with
  | .error a, .error b =>
      if h : a = b then isTrue (h ▸ rfl) else isFalse (fun hc => h (Except.error.inj hc))
  | .ok a, .ok b =>
      if h : a = b then isTrue (h ▸ rfl) else isFalse (fun hc => h (Except.ok.inj hc))
  | .error _, .ok _ => isFalse (fun hc => Except.noConfusion hc)
  | .ok _, .error _ => isFalse (fun hc => Except.noConfusion hc)

/-- Python truthiness of an optional string: `None` and `""` are falsy
(`if not self.refresh_token`). -/
def pyFalsy : Option String → Bool
  | none => true
  | some s => s.isEmpty

/-- Python `f"{x}"` on an optional string: `None` renders as `"None"`. -/
def pyStr : Option String → String
  | none => "None"
  | some s => s

/-- Uppercase hexadecimal digit, as produced by `urllib.parse.quote`. -/
def hexDigitChar (n : Nat) : Char :=
  if n < 10 then Char.ofNat (48 + n) else Char.ofNat (55 + n)

/-- Characters `urllib.parse.quote_plus` leaves unescaped: ASCII letters,
digits and `_`, `.`, `-`, `~`. -/
def safeChar (c : Char) : Bool :=
  (65 ≤ c.toNat && c.toNat ≤ 90) || (97 ≤ c.toNat && c.toNat ≤ 122) ||
  (48 ≤ c.toNat && c.toNat ≤ 57) || c.toNat == 95 || c.toNat == 46 ||
  c.toNat == 45 || c.toNat == 126

/-- `urllib.parse.quote_plus` on one character (ASCII fragment: the theorems
only instantiate it on ASCII inputs; non-ASCII input would additionally be
UTF-8 expanded by Python). Space becomes `+`, unsafe characters `%XX`. -/
def quotePlusChar (c : Char) : List Char :=
  if c.toNat == 32 then [Char.ofNat 43]
  else if safeChar c then [c]
  else [Char.ofNat 37, hexDigitChar (c.toNat / 16 % 16), hexDigitChar (c.toNat % 16)]

/-- `urllib.parse.quote_plus` on a string. -/
def quote_plus (s : String) : String :=
  String.mk ((s.toList.map quotePlusChar).flatten)

/-- `urllib.parse.urlencode`, as used by `OAuthClient._encode_params`:
`k1=v1&k2=v2` with `quote_plus` applied to keys and values, in list order
(Python dicts preserve insertion order). -/
def urlencode (ps : List (String × String)) : String :=
  String.intercalate "&" (ps.map (fun p => quote_plus p.1 ++ "=" ++ quote_plus p.2))

/-- `OAuthClient.get_authorization_url`: builds the params dict
`{client_id, state, mode}`, filters out `None` values, and appends the
urlencoded result to the fixed endpoint. -/
def get_authorization_url (cfg : OAuthConfig) (state mode : Option String) : String :=
  let params : List (String × Option String) :=
    [("client_id", some cfg.client_id), ("state", state), ("mode", mode)]
  let filtered := params.filterMap (fun p => p.2.map (fun v => (p.1, v)))
  "https://www.amocrm.ru/oauth?" ++ urlencode filtered

/-- `OAuthClient._make_post_request` composed with `_make_request` for POST:
a transport failure is caught by `_make_request` and re-raised as
`OAuthError(f"Request failed: {e}")`; a response with status `≠ 200` raises
`OAuthError(f"Failed to post to {url}: {response.text}")`; otherwise the JSON
body is returned. -/
def _make_post_request (url : String) (resp : HttpResp) : Except PyErr TokenBody :=
  match resp with
  | .transportError m => .error (.oauthError ("Request failed: " ++ m))
  | .response status body text =>
      if status = 200 then .ok body
      else .error (.oauthError ("Failed to post to " ++ url ++ ": " ++ text))

/-- `OAuthClient.get_access_token code subdomain`.  The result is the Python
return value (or raised exception), the credential state after the call
(mutations before a raise persist, exactly as in Python), and the list of POST
requests issued. -/
def get_access_token (cfg : OAuthConfig) (st : ClientState)
    (authorization_code subdomain : String) (resp : HttpResp) :
    Except PyErr TokenBody × ClientState × List PostCall :=
  let base := "https://" ++ subdomain ++ ".amocrm.ru"
  let st1 := { st with base_url := some base }
  let url := base ++ "/oauth2/access_token"
  let call : PostCall :=
    ⟨url, [("client_id", cfg.client_id), ("client_secret", cfg.client_secret),
           ("redirect_uri", cfg.redirect_uri), ("code", authorization_code),
           ("grant_type", "authorization_code")]⟩
  match _make_post_request url resp with
  | .error e => (.error e, st1, [call])
  | .ok body =>
      match body.access_token with
      | none => (.error .keyError, st1, [call])
      | some a =>
          (.ok body,
           { st1 with access_token := some a, refresh_token := body.refresh_token },
           [call])

/-- `OAuthClient.refresh_access_token`.  Raises
`OAuthError("No refresh token available")` when the stored refresh token is
falsy, before any network interaction; otherwise POSTs the refresh grant and
overwrites `access_token` and `refresh_token` from the response. -/
def refresh_access_token (cfg : OAuthConfig) (st : ClientState) (resp : HttpResp) :
    Except PyErr TokenBody × ClientState × List PostCall :=
  if pyFalsy st.refresh_token then
    (.error (.oauthError "No refresh token available"), st, [])
  else
    let url := pyStr st.base_url ++ "/oauth2/access_token"
    let call : PostCall :=
      ⟨url, [("client_id", cfg.client_id), ("client_secret", cfg.client_secret),
             ("grant_type", "refresh_token"), ("refresh_token", pyStr st.refresh_token)]⟩
    match _make_post_request url resp with
    | .error e => (.error e, st, [call])
    | .ok body =>
        match body.access_token with
        | none => (.error .keyError, st, [call])
        | some a =>
            (.ok body,
             { st with access_token := some a, refresh_token := body.refresh_token },
             [call])

/-- `FileUploadManager.__init__` configuration. -/
structure FileUploadManager where
  access_token : String
  max_part_size : Nat
deriving DecidableEq, Repr

/-- Response observed by `FileUploadManager.create_session`: a transport
failure or a response with a status code and the `upload_url` field of its
JSON body. -/
inductive SessResp where
  | transportError
  | response (status : Nat) (upload_url : String)
deriving DecidableEq, Repr

/-- Response observed by `FileUploadManager.upload_chunk`: a transport
failure or a response with a status code and the optional `next_url` field of
its JSON body (`response.json().get('next_url')`). -/
inductive ChunkResp where
  | transportError
  | response (status : Nat) (next_url : Option String)
deriving DecidableEq, Repr

/-- One network call issued by `FileUploadManager`: the session-create POST
(with the `file_name`/`file_size` payload fields) or a chunk-upload POST (with
its target URL and the raw bytes sent). -/
inductive UpCall where
  | session (file_name : String) (file_size : Nat)
  | chunk (target : String) (data : List Nat)
deriving DecidableEq, Repr

/-- `requests.Response.raise_for_status`: raises `requests.HTTPError` exactly
for status codes in [400, 600). -/
def raise_for_status (status : Nat) : Except PyErr Unit :=
  if 400 ≤ status ∧ status < 600 then .error (.httpError status) else .ok ()

/-- `FileUploadManager.create_session`: POSTs the metadata, calls
`raise_for_status`, then reads `response.json()['upload_url']`. -/
def create_session (resp : SessResp) : Except PyErr String :=
  match resp with
  | .transportError => .error .requestException
  | .response status upload_url =>
      match raise_for_status status with
      | .error e => .error e
      | .ok _ => .ok upload_url

/-- `FileUploadManager.upload_file_in_parts`: the generator
`while chunk := file.read(self.max_part_size)` — successive takes of
`max_part_size` bytes until the read returns the empty (falsy) byte string.
Structured with explicit fuel (one unit per produced chunk; `read` consumes at
least one byte per iteration when `max_part_size > 0`, so fuel `l.length`
is always sufficient).  `read(0)` returns `b""` immediately, so
`max_part_size = 0` produces no chunks. -/
def chunksOfAux (n : Nat) : Nat → List Nat → List (List Nat)
  | 0, _ => []
  | fuel + 1, l => if l = [] then [] else l.take n :: chunksOfAux n fuel (l.drop n)

/-- Chunk list produced by `upload_file_in_parts` on a file with contents
`l`. -/
def upload_file_in_parts (m : FileUploadManager) (l : List Nat) : List (List Nat) :=
  if m.max_part_size = 0 then [] else chunksOfAux m.max_part_size l.length l

/-- The chunk-upload loop inside `FileUploadManager.upload_file`: posts each
chunk to the current target URL and adopts the response's `next_url` as the
next target.  `oracle i` is the response the server gives to the `i`-th
chunk POST.  `requests.post(None, ...)` (target `none`, possible because the
loop never checks `next_url`) raises `requests.exceptions.MissingSchema`
client-side, before any network call is recorded.  Returns the Python outcome
and the chunk POSTs actually issued, in order. -/
def uploadChunks (oracle : Nat → ChunkResp) :
    Nat → Option String → List (List Nat) → Except PyErr Unit × List UpCall
  | _, _, [] => (.ok (), [])
  | i, target, c :: cs =>
      match target with
      | none => (.error .missingSchema, [])
      | some url =>
          match oracle i with
          | .transportError => (.error .requestException, [.chunk url c])
          | .response status next =>
              match raise_for_status status with
              | .error e => (.error e, [.chunk url c])
              | .ok _ =>
                  let rest := uploadChunks oracle (i + 1) next cs
                  (rest.1, .chunk url c :: rest.2)

/-- `FileUploadManager.upload_file`: creates the session once
(`file_size = os.path.getsize(file_path)`, i.e. the length of the contents),
then drives the chunk loop starting from the session's `upload_url`. -/
def upload_file (m : FileUploadManager) (file : List Nat) (file_name : String)
    (sresp : SessResp) (oracle : Nat → ChunkResp) : Except PyErr Unit × List UpCall :=
  match create_session sresp with
  | .error e => (.error e, [.session file_name file.length])
  | .ok upload_url =>
      let r := uploadChunks oracle 0 (some upload_url) (upload_file_in_parts m file)
      (r.1, .session file_name file.length :: r.2)

/-! ### Helper predicates and chunking lemmas -/

/-- A token-endpoint interaction that is a transport failure or a non-2xx
response. -/
def errResp : HttpResp → Bool
  | .transportError _ => true
  | .response s _ _ => decide (s < 200 ∨ 300 ≤ s)

/-- A chunk-upload interaction that fails: transport failure or a status for
which `raise_for_status` raises. -/
def chunkFail : ChunkResp → Bool
  | .transportError => true
  | .response s _ => decide (400 ≤ s ∧ s < 600)

/-- Recognises chunk-upload calls in a `FileUploadManager` trace. -/
def isChunkCall : UpCall → Bool
  | .chunk _ _ => true
  | .session _ _ => false

theorem chunksOfAux_nil (n : Nat) : ∀ fuel, chunksOfAux n fuel [] = [] := by
  intro fuel
  cases fuel <;> simp [chunksOfAux]

theorem chunksOfAux_fuel (n : Nat) (hn : 0 < n) :
    ∀ f₁ f₂ (l : List Nat), l.length ≤ f₁ → l.length ≤ f₂ →
      chunksOfAux n f₁ l = chunksOfAux n f₂ l := by
  intro f₁
  induction f₁ with
  | zero =>
      intro f₂ l h₁ _
      have : l = [] := List.eq_nil_of_length_eq_zero (Nat.le_zero.mp h₁)
      subst this
      simp [chunksOfAux_nil]
  | succ f ih =>
      intro f₂ l h₁ h₂
      by_cases hl : l = []
      · subst hl; simp [chunksOfAux_nil]
      · have hlen : 0 < l.length := List.length_pos.mpr hl
        cases f₂ with
        | zero => omega
        | succ f₂ =>
            simp only [chunksOfAux, if_neg hl]
            have hdrop : (l.drop n).length = l.length - n := List.length_drop n l
            exact congrArg _ (ih f₂ (l.drop n) (by omega) (by omega))

theorem chunksOfAux_step (n fuel : Nat) (l : List Nat) (h : l ≠ []) :
    chunksOfAux n (fuel + 1) l = l.take n :: chunksOfAux n fuel (l.drop n) := by
  simp [chunksOfAux, h]

/-- On a 300000-byte file, `upload_file_in_parts` with `max_part_size =
131072` yields exactly the three read results. -/
theorem upload_parts_300000 (tok : String) (file : List Nat) (h : file.length = 300000) :
    upload_file_in_parts ⟨tok, 131072⟩ file =
      [file.take 131072, (file.drop 131072).take 131072,
       (file.drop 131072).drop 131072] := by
  have hne : file ≠ [] := by
    intro hc; rw [hc] at h; simp at h
  have hd1 : (file.drop 131072).length = 168928 := by
    rw [List.length_drop, h]
  have hd2 : ((file.drop 131072).drop 131072).length = 37856 := by
    rw [List.length_drop, hd1]
  have hne1 : file.drop 131072 ≠ [] := by
    intro hc; rw [hc] at hd1; simp at hd1
  have hne2 : (file.drop 131072).drop 131072 ≠ [] := by
    intro hc; rw [hc] at hd2; simp at hd2
  have h131 : (0:Nat) < 131072 := by norm_num
  unfold upload_file_in_parts
  simp only [if_neg (by norm_num : ¬ (131072 = 0))]
  rw [h]
  rw [show (300000:Nat) = 299999 + 1 from rfl, chunksOfAux_step _ _ _ hne]
  rw [chunksOfAux_fuel 131072 h131 299999 168928 (file.drop 131072) (by omega) (by omega)]
  rw [show (168928:Nat) = 168927 + 1 from rfl, chunksOfAux_step _ _ _ hne1]
  rw [chunksOfAux_fuel 131072 h131 168927 37856 ((file.drop 131072).drop 131072)
        (by omega) (by omega)]
  rw [show (37856:Nat) = 37855 + 1 from rfl, chunksOfAux_step _ _ _ hne2]
  have htake : ((file.drop 131072).drop 131072).take 131072 =
      (file.drop 131072).drop 131072 :=
    List.take_of_length_le (by omega)
  have hdrop3 : ((file.drop 131072).drop 131072).drop 131072 = [] :=
    List.drop_eq_nil_of_le (by omega)
  rw [htake, hdrop3, chunksOfAux_nil]

/-! ### C1 -/

/-- C1 (code bug evaluation): with both `state` and `mode` supplied,
`get_authorization_url` emits both parameters — `mode` is not omitted, even
though the claim (and the function's own docstring, which says `mode` is
passed only when `state` is not supplied) requires `state` to take precedence
and `mode` to be absent. -/
theorem c1_authorization_url_mode_not_omitted :
    get_authorization_url ⟨"cid", "sec", "https://r"⟩ (some "x") (some "y") =
      "https://www.amocrm.ru/oauth?client_id=cid&state=x&mode=y" := by
  decide

/-! ### C2 -/

/-- Prior credential state used by the C2 and C3 concrete runs. -/
def c2State : ClientState :=
  ⟨some "A0", some "R0", none, none, some "https://old.amocrm.ru"⟩

/-- C2 (counterexample): with refresh token `"R0"` stored, a 200 refresh
response that contains `access_token` but omits `refresh_token` leaves the
stored `refresh_token` equal to `None`, not to its prior value `"R0"`:
`self.refresh_token = token_data.get("refresh_token")` overwrites it. -/
theorem c2_refresh_token_cleared_cex :
    (refresh_access_token ⟨"cid", "sec", "https://r"⟩ c2State
        (.response 200 ⟨some "A1", none⟩ "body")).2.1.refresh_token = none ∧
    c2State.refresh_token = some "R0" := by
  constructor
  · rfl
  · rfl

/-- C2 (amended): if a refresh token is stored and the 200 response body
contains `access_token` but omits `refresh_token`, then afterwards
`access_token` is the new value and the stored `refresh_token` is cleared to
`None` (it is overwritten, not preserved). -/
theorem c2_refresh_overwrites (cfg : OAuthConfig) (st : ClientState) (r : String)
    (hr : st.refresh_token = some r) (hne : r ≠ "") (body : TokenBody) (a : String)
    (ha : body.access_token = some a) (hrt : body.refresh_token = none) (text : String) :
    (refresh_access_token cfg st (.response 200 body text)).2.1.access_token = some a ∧
    (refresh_access_token cfg st (.response 200 body text)).2.1.refresh_token = none ∧
    (refresh_access_token cfg st (.response 200 body text)).1 = .ok body := by
  have hfalsy : pyFalsy st.refresh_token = false := by
    rw [hr]
    simp only [pyFalsy]
    rw [Bool.eq_false_iff]
    intro hb
    exact hne ((String.isEmpty_iff r).mp hb)
  simp [refresh_access_token, hfalsy, _make_post_request, ha, hrt]

/-- C2 (witness). -/
theorem c2_refresh_overwrites_witness :
    c2State.refresh_token = some "R0" ∧ ("R0" : String) ≠ "" ∧
    (⟨some "A1", none⟩ : TokenBody).access_token = some "A1" ∧
    (⟨some "A1", none⟩ : TokenBody).refresh_token = none ∧
    ((refresh_access_token ⟨"cid", "sec", "https://r"⟩ c2State
        (.response 200 ⟨some "A1", none⟩ "body")).2.1.access_token = some "A1" ∧
     (refresh_access_token ⟨"cid", "sec", "https://r"⟩ c2State
        (.response 200 ⟨some "A1", none⟩ "body")).2.1.refresh_token = none ∧
     (refresh_access_token ⟨"cid", "sec", "https://r"⟩ c2State
        (.response 200 ⟨some "A1", none⟩ "body")).1 = .ok ⟨some "A1", none⟩) :=
  ⟨rfl, by decide, rfl, rfl,
   c2_refresh_overwrites _ c2State "R0" rfl (by decide) _ "A1" rfl rfl "body"⟩

/-! ### C3 -/

/-- C3 (counterexample): starting from `base_url = "https://old.amocrm.ru"`,
a 400 token-exchange response raises the OAuth error but leaves `base_url`
already overwritten with the new subdomain URL — the prior value is not
restored, so not every credential field keeps its pre-call value. -/
theorem c3_base_url_mutated_cex :
    (get_access_token ⟨"cid", "sec", "https://r"⟩ c2State "code" "new"
        (.response 400 ⟨none, none⟩ "bad")).2.1.base_url =
      some "https://new.amocrm.ru" ∧
    c2State.base_url = some "https://old.amocrm.ru" ∧
    (get_access_token ⟨"cid", "sec", "https://r"⟩ c2State "code" "new"
        (.response 400 ⟨none, none⟩ "bad")).1 =
      .error (.oauthError
        "Failed to post to https://new.amocrm.ru/oauth2/access_token: bad") := by
  refine ⟨rfl, rfl, ?_⟩
  decide

/-- C3 (amended): on a non-2xx response or transport failure,
`get_access_token` raises the repository's OAuth error (the code's
realisation of `AuthExchangeError`) and leaves `access_token`,
`refresh_token`, `longlive_token` and `api_key` unchanged — but `base_url`
has already been overwritten with the subdomain-derived URL before the
request and keeps that new value. -/
theorem c3_exchange_error_state (cfg : OAuthConfig) (st : ClientState)
    (code sub : String) (resp : HttpResp) (h : errResp resp = true) :
    (∃ m, (get_access_token cfg st code sub resp).1 = .error (.oauthError m)) ∧
    (get_access_token cfg st code sub resp).2.1.access_token = st.access_token ∧
    (get_access_token cfg st code sub resp).2.1.refresh_token = st.refresh_token ∧
    (get_access_token cfg st code sub resp).2.1.longlive_token = st.longlive_token ∧
    (get_access_token cfg st code sub resp).2.1.api_key = st.api_key ∧
    (get_access_token cfg st code sub resp).2.1.base_url =
      some ("https://" ++ sub ++ ".amocrm.ru") := by
  cases resp with
  | transportError m =>
      simp [get_access_token, _make_post_request]
  | response s body text =>
      have hs : ¬ (s = 200) := by
        simp only [errResp, decide_eq_true_eq] at h
        omega
      simp [get_access_token, _make_post_request, hs]

/-- C3 (witness). -/
theorem c3_exchange_error_state_witness :
    errResp (.response 400 ⟨none, none⟩ "bad") = true ∧
    ((∃ m, (get_access_token ⟨"cid", "sec", "https://r"⟩ c2State "code" "new"
        (.response 400 ⟨none, none⟩ "bad")).1 = .error (.oauthError m)) ∧
     (get_access_token ⟨"cid", "sec", "https://r"⟩ c2State "code" "new"
        (.response 400 ⟨none, none⟩ "bad")).2.1.access_token = c2State.access_token ∧
     (get_access_token ⟨"cid", "sec", "https://r"⟩ c2State "code" "new"
        (.response 400 ⟨none, none⟩ "bad")).2.1.refresh_token = c2State.refresh_token ∧
     (get_access_token ⟨"cid", "sec", "https://r"⟩ c2State "code" "new"
        (.response 400 ⟨none, none⟩ "bad")).2.1.longlive_token = c2State.longlive_token ∧
     (get_access_token ⟨"cid", "sec", "https://r"⟩ c2State "code" "new"
        (.response 400 ⟨none, none⟩ "bad")).2.1.api_key = c2State.api_key ∧
     (get_access_token ⟨"cid", "sec", "https://r"⟩ c2State "code" "new"
        (.response 400 ⟨none, none⟩ "bad")).2.1.base_url =
       some ("https://" ++ "new" ++ ".amocrm.ru")) :=
  ⟨by decide, c3_exchange_error_state _ c2State "code" "new" _ (by decide)⟩

/-! ### C4 -/

/-- C4: with no stored refresh token, `refresh_access_token` raises
`OAuthError("No refresh token available")`, issues no POST request, and
leaves the credential state exactly as it was. -/
theorem c4_refresh_missing_token (cfg : OAuthConfig) (st : ClientState)
    (resp : HttpResp) (h : st.refresh_token = none) :
    refresh_access_token cfg st resp =
      (.error (.oauthError "No refresh token available"), st, []) := by
  simp [refresh_access_token, pyFalsy, h]

/-- C4 (witness). -/
theorem c4_refresh_missing_token_witness :
    (⟨some "A0", none, none, none, some "https://old.amocrm.ru"⟩ :
        ClientState).refresh_token = none ∧
    refresh_access_token ⟨"cid", "sec", "https://r"⟩
        ⟨some "A0", none, none, none, some "https://old.amocrm.ru"⟩
        (.response 200 ⟨some "A1", some "R1"⟩ "body") =
      (.error (.oauthError "No refresh token available"),
       ⟨some "A0", none, none, none, some "https://old.amocrm.ru"⟩, []) :=
  ⟨rfl, c4_refresh_missing_token _ _ _ rfl⟩

/-! ### C8 -/

/-- C8: uploading a 300000-byte file with `max_part_size = 131072` issues
exactly one session-create call followed by exactly three chunk-upload calls
in file order, of sizes 131072, 131072 and 37856; the first chunk is posted
to the session's `upload_url`, each later chunk to the `next_url` of the
previous response, and no call follows the response lacking `next_url`. -/
theorem c8_upload_trace (file : List Nat) (h : file.length = 300000)
    (tok name u1 u2 u3 : String) :
    upload_file ⟨tok, 131072⟩ file name (.response 200 u1)
      (fun i => if i = 0 then .response 200 (some u2)
                else if i = 1 then .response 200 (some u3)
                else .response 200 none) =
    (.ok (), [.session name 300000,
              .chunk u1 (file.take 131072),
              .chunk u2 ((file.drop 131072).take 131072),
              .chunk u3 ((file.drop 131072).drop 131072)]) ∧
    (file.take 131072).length = 131072 ∧
    ((file.drop 131072).take 131072).length = 131072 ∧
    ((file.drop 131072).drop 131072).length = 37856 := by
  have hd1 : (file.drop 131072).length = 168928 := by
    rw [List.length_drop, h]
  have hd2 : ((file.drop 131072).drop 131072).length = 37856 := by
    rw [List.length_drop, hd1]
  refine ⟨?_, ?_, ?_, hd2⟩
  · have hparts := upload_parts_300000 tok file h
    simp only [upload_file, create_session, raise_for_status]
    norm_num
    rw [hparts, h]
    simp [uploadChunks, raise_for_status]
  · rw [List.length_take, h]
    omega
  · rw [List.length_take, hd1]
    omega

/-- C8 (witness). -/
theorem c8_upload_trace_witness :
    (List.replicate 300000 (0 : Nat)).length = 300000 ∧
    (upload_file ⟨"tok", 131072⟩ (List.replicate 300000 (0 : Nat)) "cat.jpeg"
        (.response 200 "u1")
        (fun i => if i = 0 then .response 200 (some "u2")
                  else if i = 1 then .response 200 (some "u3")
                  else .response 200 none) =
      (.ok (), [.session "cat.jpeg" 300000,
                .chunk "u1" ((List.replicate 300000 (0 : Nat)).take 131072),
                .chunk "u2" (((List.replicate 300000 (0 : Nat)).drop 131072).take 131072),
                .chunk "u3" (((List.replicate 300000 (0 : Nat)).drop 131072).drop 131072)]) ∧
     ((List.replicate 300000 (0 : Nat)).take 131072).length = 131072 ∧
     (((List.replicate 300000 (0 : Nat)).drop 131072).take 131072).length = 131072 ∧
     (((List.replicate 300000 (0 : Nat)).drop 131072).drop 131072).length = 37856) :=
  ⟨List.length_replicate _ _,
   c8_upload_trace _ (List.length_replicate _ _) "tok" "cat.jpeg" "u1" "u2" "u3"⟩

/-! ### C9 -/

/-- C9 (counterexample): with three one-byte chunks and the second chunk
answered with a 400, the upload aborts after the second chunk call but
surfaces the raw `requests.HTTPError` (modelled as `PyErr.httpError 400`) —
the code calls `raise_for_status` with no translation, so no dedicated
`ChunkUploadError` kind is raised, contrary to the claim. -/
theorem c9_raw_http_error_cex :
    (upload_file ⟨"tok", 1⟩ [0, 1, 2] "f" (.response 200 "u1")
        (fun i => if i = 0 then .response 200 (some "u2")
                  else .response 400 none)).1 = .error (.httpError 400) ∧
    (upload_file ⟨"tok", 1⟩ [0, 1, 2] "f" (.response 200 "u1")
        (fun i => if i = 0 then .response 200 (some "u2")
                  else .response 400 none)).2 =
      [.session "f" 3, .chunk "u1" [0], .chunk "u2" [1]] := by
  constructor
  · decide
  · decide

/-- C9 (amended): if the file yields at least three chunks, the first chunk
upload succeeds and the second fails (non-2xx status or transport failure),
`upload_file` aborts before any third chunk-upload call (exactly two chunk
calls are issued) and surfaces the raw `requests`-level exception —
`requests.HTTPError` from `raise_for_status` or the transport
`requests.RequestException` — to the caller, untranslated. -/
theorem c9_second_chunk_abort (m : FileUploadManager) (file : List Nat)
    (name u1 n1 : String) (oracle : Nat → ChunkResp)
    (c1 c2 c3 : List Nat) (rest : List (List Nat))
    (hparts : upload_file_in_parts m file = c1 :: c2 :: c3 :: rest)
    (h0 : oracle 0 = .response 200 (some n1))
    (h1 : chunkFail (oracle 1) = true) :
    ((upload_file m file name (.response 200 u1) oracle).1 = .error .requestException ∨
     ∃ s, (upload_file m file name (.response 200 u1) oracle).1 =
       .error (.httpError s)) ∧
    ((upload_file m file name (.response 200 u1) oracle).2.filter isChunkCall).length
      = 2 := by
  simp only [upload_file, create_session, raise_for_status]
  norm_num
  rw [hparts]
  simp only [uploadChunks, h0, raise_for_status]
  norm_num
  cases hor : oracle 1 with
  | transportError =>
      simp [uploadChunks, hor, isChunkCall]
  | response s next =>
      rw [hor] at h1
      simp only [chunkFail, decide_eq_true_eq] at h1
      simp [uploadChunks, hor, raise_for_status, h1, isChunkCall]

/-- C9 (witness). -/
theorem c9_second_chunk_abort_witness :
    upload_file_in_parts ⟨"tok", 1⟩ [0, 1, 2] = [0] :: [1] :: [2] :: [] ∧
    (fun i => if i = 0 then ChunkResp.response 200 (some "u2")
              else ChunkResp.response 400 none) 0 = .response 200 (some "u2") ∧
    chunkFail ((fun i => if i = 0 then ChunkResp.response 200 (some "u2")
              else ChunkResp.response 400 none) 1) = true ∧
    (((upload_file ⟨"tok", 1⟩ [0, 1, 2] "f" (.response 200 "u1")
        (fun i => if i = 0 then ChunkResp.response 200 (some "u2")
                  else ChunkResp.response 400 none)).1 = .error .requestException ∨
      ∃ s, (upload_file ⟨"tok", 1⟩ [0, 1, 2] "f" (.response 200 "u1")
        (fun i => if i = 0 then ChunkResp.response 200 (some "u2")
                  else ChunkResp.response 400 none)).1 = .error (.httpError s)) ∧
     ((upload_file ⟨"tok", 1⟩ [0, 1, 2] "f" (.response 200 "u1")
        (fun i => if i = 0 then ChunkResp.response 200 (some "u2")
                  else ChunkResp.response 400 none)).2.filter isChunkCall).length = 2) :=
  ⟨by decide, rfl, by decide,
   c9_second_chunk_abort ⟨"tok", 1⟩ [0, 1, 2] "f" "u1" "u2" _ [0] [1] [2] []
     (by decide) rfl (by decide)⟩

/-! ### Timestamp formatting (`_utils._decode_timestamp` and `strftime`)

`datetime.utcfromtimestamp(t).strftime('%Y-%m-%d %H:%M:%S')` is modelled by
`fmtTs`: the proleptic-Gregorian civil date of the day number `t / 86400`
(days since 1970-01-01) and the time of day `t % 86400`, zero-padded.
`datetime.utcfromtimestamp` raises `ValueError` for instants at or after
year 10000 (timestamps ≥ 253402300800); timestamps are non-negative here
(`Nat`).  Python string `<` / `>=` are code-point-wise lexicographic
comparison, modelled by `strLt` / `strGe`. -/

/-- Python lexicographic `<` on strings, by code point; a strict prefix is
smaller. -/
def strLt : List Char → List Char → Bool
  | _, [] => false
  | [], _ :: _ => true
  | a :: as, b :: bs =>
      if a.toNat < b.toNat then true
      else if b.toNat < a.toNat then false
      else strLt as bs

/-- Python `>=` on strings: for the total lexicographic order, `a >= b` holds
iff `b < a` or `a = b`. -/
def strGe (a b : List Char) : Bool := strLt b a || a == b

/-- ASCII digit character. -/
def digitChar (n : Nat) : Char := Char.ofNat (48 + n)

/-- Two-digit zero-padded decimal rendering (`%m`, `%d`, `%H`, `%M`, `%S`). -/
def pad2 (n : Nat) : List Char := [digitChar (n / 10), digitChar (n % 10)]

/-- Four-digit zero-padded decimal rendering (`%Y` for years 1970–9999). -/
def pad4 (n : Nat) : List Char := pad2 (n / 100) ++ pad2 (n % 100)

/-- Gregorian leap-year test. -/
def isLeap (y : Nat) : Bool := (y % 4 == 0 && y % 100 != 0) || y % 400 == 0

/-- Number of days in year `y`. -/
def daysInYear (y : Nat) : Nat := if isLeap y then 366 else 365

/-- Month lengths of year `y`. -/
def monthLengths (y : Nat) : List Nat :=
  [31, if isLeap y then 29 else 28, 31, 30, 31, 30, 31, 31, 30, 31, 30, 31]

/-- Month (0-based) and day (0-based) from a day-of-year against a month
length table. -/
def monthFromDoy : List Nat → Nat → Nat × Nat
  | [], d => (0, d)
  | ml :: rest, d =>
      if d < ml then (0, d)
      else
        let p := monthFromDoy rest (d - ml)
        (p.1 + 1, p.2)

/-- Year and day-of-year from a day count, scanning years upward from `y`.
`fuel` bounds the number of year steps (each step consumes at least 365
days, so `d / 365 + 1` steps always suffice). -/
def yearFromDaysAux : Nat → Nat → Nat → Nat × Nat
  | 0, y, d => (y, d)
  | fuel + 1, y, d =>
      if d < daysInYear y then (y, d)
      else yearFromDaysAux fuel (y + 1) (d - daysInYear y)

/-- Year and day-of-year of day number `d` (days since 1970-01-01). -/
def yearFromDays (d : Nat) : Nat × Nat := yearFromDaysAux (d / 365 + 1) 1970 d

/-- Assembles `'YYYY-MM-DD HH:MM:SS'` from its six numeric fields. -/
def fmtParts (y mo dy hh mi ss : Nat) : List Char :=
  pad4 y ++ '-' :: (pad2 mo ++ '-' :: (pad2 dy ++ ' ' ::
    (pad2 hh ++ ':' :: (pad2 mi ++ ':' :: pad2 ss))))

/-- `datetime.utcfromtimestamp(t).strftime('%Y-%m-%d %H:%M:%S')` for a valid
non-negative timestamp `t`. -/
def fmtTs (t : Nat) : List Char :=
  fmtParts (yearFromDays (t / 86400)).1
    ((monthFromDoy (monthLengths (yearFromDays (t / 86400)).1)
        (yearFromDays (t / 86400)).2).1 + 1)
    ((monthFromDoy (monthLengths (yearFromDays (t / 86400)).1)
        (yearFromDays (t / 86400)).2).2 + 1)
    (t % 86400 / 3600) (t % 86400 % 3600 / 60) (t % 86400 % 60)

/-- First timestamp `datetime.utcfromtimestamp` cannot represent
(1000-01-01 of year 10000); the formatter raises `ValueError` from there
on. -/
def maxTs : Nat := 253402300800

/-- `_utils._decode_timestamp`: format the timestamp, or raise `ValueError`
(from `datetime.utcfromtimestamp`) when the year would exceed 9999. -/
def _decode_timestamp (t : Nat) : Except PyErr (List Char) :=
  if t < maxTs then .ok (fmtTs t) else .error .valueError

/-- `_utils._compare_timestamp_with_current`: formats the timestamp and the
current time (`now`, seconds since the epoch, as `datetime.utcnow()` —
always below `maxTs` in reality) and compares the strings: `<` returns
`True`, `>=` returns `False`, and the Python fall-through with no `return`
(returning `None`) is the `.ok none` case. -/
def _compare_timestamp_with_current (t now : Nat) : Except PyErr (Option Bool) :=
  match _decode_timestamp t with
  | .error e => .error e
  | .ok decoded =>
      let current := fmtTs now
      if strLt decoded current then .ok (some true)
      else if strGe decoded current then .ok (some false)
      else .ok none

/-! ### Lexicographic comparison lemmas -/

theorem charToNat_inj {a b : Char} (h : a.toNat = b.toNat) : a = b :=
  Char.ext (UInt32.ext h)

theorem strLt_irrefl : ∀ l, strLt l l = false := by
  intro l
  induction l with
  | nil => rfl
  | cons c r ih => simp [strLt, ih]

theorem strLt_cons_same (c : Char) (r₁ r₂ : List Char) :
    strLt (c :: r₁) (c :: r₂) = strLt r₁ r₂ := by
  simp [strLt]

theorem strLt_append_left : ∀ (l r₁ r₂ : List Char),
    strLt (l ++ r₁) (l ++ r₂) = strLt r₁ r₂ := by
  intro l
  induction l with
  | nil => intro r₁ r₂; rfl
  | cons c t ih => intro r₁ r₂; rw [List.cons_append, List.cons_append,
      strLt_cons_same, ih]

theorem strLt_asymm : ∀ a b, strLt a b = true → strLt b a = false := by
  intro a
  induction a with
  | nil =>
      intro b h
      cases b with
      | nil => exact absurd h (by simp [strLt])
      | cons c r => rfl
  | cons c r ih =>
      intro b h
      cases b with
      | nil => exact absurd h (by simp [strLt])
      | cons d s =>
          simp only [strLt] at h ⊢
          by_cases h1 : c.toNat < d.toNat
          · have h2 : ¬ d.toNat < c.toNat := by omega
            simp [h1, h2]
          · by_cases h2 : d.toNat < c.toNat
            · simp [h1, h2] at h
            · simp only [if_neg h1, if_neg h2] at h ⊢
              exact ih s h

theorem strLt_trichotomy : ∀ a b, strLt a b = false → strLt b a = true ∨ a = b := by
  intro a
  induction a with
  | nil =>
      intro b h
      cases b with
      | nil => right; rfl
      | cons d s => exact absurd h (by simp [strLt])
  | cons c r ih =>
      intro b h
      cases b with
      | nil => left; rfl
      | cons d s =>
          simp only [strLt] at h ⊢
          by_cases h1 : c.toNat < d.toNat
          · simp [h1] at h
          · by_cases h2 : d.toNat < c.toNat
            · left; simp [h1, h2]
            · simp only [if_neg h1, if_neg h2] at h ⊢
              have hcd : c = d := charToNat_inj (by omega)
              rcases ih s h with h3 | h3
              · left; exact h3
              · right; rw [hcd, h3]

theorem strLt_append_of_lt : ∀ (l₁ l₂ r₁ r₂ : List Char),
    l₁.length = l₂.length → strLt l₁ l₂ = true →
    strLt (l₁ ++ r₁) (l₂ ++ r₂) = true := by
  intro l₁
  induction l₁ with
  | nil =>
      intro l₂ r₁ r₂ hlen h
      cases l₂ with
      | nil => exact absurd h (by simp [strLt])
      | cons d s => simp at hlen
  | cons c t ih =>
      intro l₂ r₁ r₂ hlen h
      cases l₂ with
      | nil => simp at hlen
      | cons d s =>
          simp only [List.cons_append, strLt] at h ⊢
          by_cases h1 : c.toNat < d.toNat
          · simp [h1]
          · by_cases h2 : d.toNat < c.toNat
            · simp [h1, h2] at h
            · simp only [if_neg h1, if_neg h2] at h ⊢
              exact ih s r₁ r₂ (by simpa using hlen) h

/-! ### Zero-padded decimal rendering lemmas -/

theorem digitChar_toNat : ∀ n, n < 10 → (digitChar n).toNat = 48 + n := by
  decide

theorem pad2_lt (a b : Nat) (ha : a < 100) (hb : b < 100) :
    strLt (pad2 a) (pad2 b) = true ↔ a < b := by
  have h1 := digitChar_toNat (a / 10) (by omega)
  have h2 := digitChar_toNat (a % 10) (by omega)
  have h3 := digitChar_toNat (b / 10) (by omega)
  have h4 := digitChar_toNat (b % 10) (by omega)
  simp only [pad2, strLt, h1, h2, h3, h4]
  split_ifs with g1 g2 g3 g4 <;> simp <;> omega

theorem pad2_length_eq (a b : Nat) : (pad2 a).length = (pad2 b).length := rfl

theorem pad4_length_eq (a b : Nat) : (pad4 a).length = (pad4 b).length := rfl

theorem pad4_lt (a b : Nat) (ha : a < 10000) (hb : b < 10000) :
    strLt (pad4 a) (pad4 b) = true ↔ a < b := by
  unfold pad4
  rcases Nat.lt_trichotomy (a / 100) (b / 100) with h | h | h
  · have ht : strLt (pad2 (a / 100)) (pad2 (b / 100)) = true :=
      (pad2_lt _ _ (by omega) (by omega)).mpr h
    rw [strLt_append_of_lt _ _ _ _ (pad2_length_eq _ _) ht]
    constructor
    · intro _; omega
    · intro _; rfl
  · rw [h, strLt_append_left,
      pad2_lt (a % 100) (b % 100) (by omega) (by omega)]
    omega
  · have ht : strLt (pad2 (b / 100)) (pad2 (a / 100)) = true :=
      (pad2_lt _ _ (by omega) (by omega)).mpr h
    have hf := strLt_asymm _ _
      (strLt_append_of_lt _ _ (pad2 (b % 100)) (pad2 (a % 100))
        (pad2_length_eq _ _) ht)
    rw [hf]
    constructor
    · intro hc; cases hc
    · intro hc; omega

/-! ### Calendar lemmas -/

theorem daysInYear_ge (y : Nat) : 365 ≤ daysInYear y := by
  unfold daysInYear
  split <;> omega

theorem yfd_stop (f y d : Nat) (h : d < daysInYear y) :
    yearFromDaysAux f y d = (y, d) := by
  cases f <;> simp [yearFromDaysAux, h]

theorem yfd_fst_ge : ∀ f y d, y ≤ (yearFromDaysAux f y d).1 := by
  intro f
  induction f with
  | zero => intro y d; simp [yearFromDaysAux]
  | succ f ih =>
      intro y d
      simp only [yearFromDaysAux]
      split
      · simp
      · exact le_trans (Nat.le_succ y) (ih (y + 1) _)

theorem yfd_doy_lt : ∀ f y d, d < 365 * f + 365 →
    (yearFromDaysAux f y d).2 < daysInYear (yearFromDaysAux f y d).1 := by
  intro f
  induction f with
  | zero =>
      intro y d h
      simp only [yearFromDaysAux]
      have := daysInYear_ge y
      omega
  | succ f ih =>
      intro y d h
      simp only [yearFromDaysAux]
      split
      · simpa using (by assumption : d < daysInYear y)
      · have hL := daysInYear_ge y
        exact ih (y + 1) (d - daysInYear y) (by omega)

theorem yfd_fuel_irrel : ∀ f₁ f₂ y d, d < 365 * f₁ + 365 → d < 365 * f₂ + 365 →
    yearFromDaysAux f₁ y d = yearFromDaysAux f₂ y d := by
  intro f₁
  induction f₁ with
  | zero =>
      intro f₂ y d h₁ _
      have hy := daysInYear_ge y
      rw [yfd_stop, yfd_stop] <;> omega
  | succ f ih =>
      intro f₂ y d h₁ h₂
      by_cases hd : d < daysInYear y
      · rw [yfd_stop _ _ _ hd, yfd_stop _ _ _ hd]
      · have hy := daysInYear_ge y
        cases f₂ with
        | zero => omega
        | succ f₂ =>
            simp only [yearFromDaysAux, if_neg hd]
            exact ih f₂ (y + 1) (d - daysInYear y) (by omega) (by omega)

theorem yfd_mono : ∀ f y d₁ d₂, d₁ < d₂ → d₂ < 365 * f + 365 →
    ((yearFromDaysAux f y d₁).1 < (yearFromDaysAux f y d₂).1 ∨
     ((yearFromDaysAux f y d₁).1 = (yearFromDaysAux f y d₂).1 ∧
      (yearFromDaysAux f y d₁).2 < (yearFromDaysAux f y d₂).2)) := by
  intro f
  induction f with
  | zero =>
      intro y d₁ d₂ hlt h
      simp only [yearFromDaysAux]
      exact Or.inr ⟨by trivial, hlt⟩
  | succ f ih =>
      intro y d₁ d₂ hlt h
      have hy := daysInYear_ge y
      by_cases h₂ : d₂ < daysInYear y
      · rw [yfd_stop _ _ _ h₂, yfd_stop _ _ _ (by omega)]
        right
        exact ⟨rfl, hlt⟩
      · by_cases h₁ : d₁ < daysInYear y
        · rw [yfd_stop _ _ _ h₁]
          simp only [yearFromDaysAux, if_neg h₂]
          left
          have := yfd_fst_ge f (y + 1) (d₂ - daysInYear y)
          omega
        · simp only [yearFromDaysAux, if_neg h₁, if_neg h₂]
          exact ih (y + 1) (d₁ - daysInYear y) (d₂ - daysInYear y)
            (by omega) (by omega)

/-- Cumulative day count of `n` consecutive years starting at year `y`. -/
def sumDays (y : Nat) : Nat → Nat
  | 0 => 0
  | n + 1 => daysInYear y + sumDays (y + 1) n

theorem yfd_year_lt : ∀ f n y d, d < sumDays y n →
    (yearFromDaysAux f y d).1 < y + n := by
  intro f
  induction f with
  | zero =>
      intro n y d h
      cases n with
      | zero => simp [sumDays] at h
      | succ n => simp only [yearFromDaysAux]; omega
  | succ f ih =>
      intro n y d h
      have hy := daysInYear_ge y
      cases n with
      | zero => simp [sumDays] at h
      | succ n =>
          by_cases hd : d < daysInYear y
          · rw [yfd_stop _ _ _ hd]; omega
          · simp only [yearFromDaysAux, if_neg hd]
            have := ih n (y + 1) (d - daysInYear y)
              (by simp only [sumDays] at h; omega)
            omega

theorem sumDays_split : ∀ m n y, sumDays y (m + n) = sumDays y m + sumDays (y + m) n := by
  intro m
  induction m with
  | zero => intro n y; simp [sumDays]
  | succ m ih =>
      intro n y
      have e : m + 1 + n = (m + n) + 1 := by omega
      rw [e]
      show daysInYear y + sumDays (y + 1) (m + n) = sumDays y (m + 1) + sumDays (y + (m + 1)) n
      rw [ih n (y + 1)]
      show daysInYear y + (sumDays (y + 1) m + sumDays (y + 1 + m) n) =
        (daysInYear y + sumDays (y + 1) m) + sumDays (y + (m + 1)) n
      have e2 : y + 1 + m = y + (m + 1) := by omega
      rw [e2, Nat.add_assoc]

theorem isLeap_shift (y : Nat) : isLeap (y + 400) = isLeap y := by
  unfold isLeap
  have h4 : (y + 400) % 4 = y % 4 := by omega
  have h100 : (y + 400) % 100 = y % 100 := by omega
  have h400 : (y + 400) % 400 = y % 400 := by omega
  rw [h4, h100, h400]

theorem daysInYear_shift (y : Nat) : daysInYear (y + 400) = daysInYear y := by
  unfold daysInYear
  rw [isLeap_shift]

theorem sumDays_shift : ∀ n y, sumDays (y + 400) n = sumDays y n := by
  intro n
  induction n with
  | zero => intro y; rfl
  | succ n ih =>
      intro y
      show daysInYear (y + 400) + sumDays (y + 400 + 1) n =
        daysInYear y + sumDays (y + 1) n
      have e : y + 400 + 1 = y + 1 + 400 := by omega
      rw [daysInYear_shift, e, ih (y + 1)]

set_option maxRecDepth 10000 in
theorem sumDays_2000_400 : sumDays 2000 400 = 146097 := by decide

set_option maxRecDepth 10000 in
theorem sumDays_1970_30 : sumDays 1970 30 = 10957 := by decide

theorem sumDays_blocks : ∀ k, sumDays 2000 (400 * k) = k * 146097 := by
  intro k
  induction k with
  | zero => rfl
  | succ k ih =>
      have e : 400 * (k + 1) = 400 + 400 * k := by omega
      rw [e, sumDays_split 400 (400 * k) 2000, sumDays_2000_400]
      show 146097 + sumDays (2000 + 400) (400 * k) = (k + 1) * 146097
      rw [sumDays_shift (400 * k) 2000, ih]
      omega

theorem sumDays_1970 : sumDays 1970 8030 = 2932897 := by
  have h := sumDays_split 30 8000 1970
  rw [show (30:Nat) + 8000 = 8030 from rfl] at h
  rw [h, sumDays_1970_30]
  rw [show (1970:Nat) + 30 = 2000 from rfl]
  rw [show (8000:Nat) = 400 * 20 from rfl, sumDays_blocks]

theorem yearFromDays_doy (d : Nat) :
    (yearFromDays d).2 < daysInYear (yearFromDays d).1 :=
  yfd_doy_lt _ _ _ (by omega)

theorem yearFromDays_year_lt (d : Nat) (h : d < 2932897) :
    (yearFromDays d).1 < 10000 := by
  unfold yearFromDays
  have := yfd_year_lt (d / 365 + 1) 8030 1970 d (by rw [sumDays_1970]; exact h)
  omega

theorem yearFromDays_mono (d₁ d₂ : Nat) (h : d₁ < d₂) :
    ((yearFromDays d₁).1 < (yearFromDays d₂).1 ∨
     ((yearFromDays d₁).1 = (yearFromDays d₂).1 ∧
      (yearFromDays d₁).2 < (yearFromDays d₂).2)) := by
  unfold yearFromDays
  rw [yfd_fuel_irrel (d₁ / 365 + 1) (d₂ / 365 + 1) 1970 d₁ (by omega) (by omega)]
  exact yfd_mono (d₂ / 365 + 1) 1970 d₁ d₂ h (by omega)

theorem monthLengths_sum (y : Nat) : (monthLengths y).sum = daysInYear y := by
  by_cases h : isLeap y <;> simp [monthLengths, daysInYear, h]

theorem monthLengths_le (y : Nat) : ∀ x ∈ monthLengths y, x ≤ 31 := by
  intro x hx
  by_cases h : isLeap y <;> simp [monthLengths, h] at hx <;> omega

theorem monthLengths_length (y : Nat) : (monthLengths y).length = 12 := by
  rfl

theorem mfd_fst_lt : ∀ ml d, d < ml.sum → (monthFromDoy ml d).1 < ml.length := by
  intro ml
  induction ml with
  | nil => intro d h; simp at h
  | cons m rest ih =>
      intro d h
      simp only [monthFromDoy]
      split
      · simp
      · have := ih (d - m) (by simp [List.sum_cons] at h; omega)
        simp only [List.length_cons]
        omega

theorem mfd_snd_lt : ∀ ml d, d < ml.sum → (∀ x ∈ ml, x ≤ 31) →
    (monthFromDoy ml d).2 < 31 := by
  intro ml
  induction ml with
  | nil => intro d h _; simp at h
  | cons m rest ih =>
      intro d h hle
      simp only [monthFromDoy]
      split
      · have hm : m ≤ 31 := hle m (by simp)
        simp only []
        omega
      · exact ih (d - m) (by simp [List.sum_cons] at h; omega)
          (fun x hx => hle x (by simp [hx]))

theorem mfd_mono : ∀ ml d₁ d₂, d₁ < d₂ → d₂ < ml.sum →
    ((monthFromDoy ml d₁).1 < (monthFromDoy ml d₂).1 ∨
     ((monthFromDoy ml d₁).1 = (monthFromDoy ml d₂).1 ∧
      (monthFromDoy ml d₁).2 < (monthFromDoy ml d₂).2)) := by
  intro ml
  induction ml with
  | nil => intro d₁ d₂ hlt h; simp at h
  | cons m rest ih =>
      intro d₁ d₂ hlt h
      by_cases h₂ : d₂ < m
      · simp only [monthFromDoy, if_pos h₂, if_pos (by omega : d₁ < m)]
        exact Or.inr ⟨by trivial, hlt⟩
      · by_cases h₁ : d₁ < m
        · simp only [monthFromDoy, if_pos h₁, if_neg h₂]
          left
          omega
        · simp only [monthFromDoy, if_neg h₁, if_neg h₂]
          have := ih (d₁ - m) (d₂ - m) (by omega)
            (by simp [List.sum_cons] at h; omega)
          rcases this with h3 | ⟨h3, h4⟩
          · left; simpa using h3
          · right
            constructor
            · simpa using h3
            · simpa using h4

/-! ### Monotonicity of the formatted timestamp -/

theorem fmtParts_lt (y₁ mo₁ dy₁ hh₁ mi₁ ss₁ y₂ mo₂ dy₂ hh₂ mi₂ ss₂ : Nat)
    (hy₁ : y₁ < 10000) (hy₂ : y₂ < 10000)
    (hmo₁ : mo₁ < 100) (hmo₂ : mo₂ < 100) (hdy₁ : dy₁ < 100) (hdy₂ : dy₂ < 100)
    (hhh₁ : hh₁ < 100) (hhh₂ : hh₂ < 100) (hmi₁ : mi₁ < 100) (hmi₂ : mi₂ < 100)
    (hss₁ : ss₁ < 100) (hss₂ : ss₂ < 100)
    (hlex : y₁ < y₂ ∨ (y₁ = y₂ ∧ (mo₁ < mo₂ ∨ (mo₁ = mo₂ ∧
      (dy₁ < dy₂ ∨ (dy₁ = dy₂ ∧ (hh₁ < hh₂ ∨ (hh₁ = hh₂ ∧
      (mi₁ < mi₂ ∨ (mi₁ = mi₂ ∧ ss₁ < ss₂)))))))))) :
    strLt (fmtParts y₁ mo₁ dy₁ hh₁ mi₁ ss₁) (fmtParts y₂ mo₂ dy₂ hh₂ mi₂ ss₂)
      = true := by
  unfold fmtParts
  rcases hlex with h | ⟨rfl, hlex⟩
  · exact strLt_append_of_lt _ _ _ _ (pad4_length_eq _ _)
      ((pad4_lt _ _ hy₁ hy₂).mpr h)
  rw [strLt_append_left, strLt_cons_same]
  rcases hlex with h | ⟨rfl, hlex⟩
  · exact strLt_append_of_lt _ _ _ _ (pad2_length_eq _ _)
      ((pad2_lt _ _ hmo₁ hmo₂).mpr h)
  rw [strLt_append_left, strLt_cons_same]
  rcases hlex with h | ⟨rfl, hlex⟩
  · exact strLt_append_of_lt _ _ _ _ (pad2_length_eq _ _)
      ((pad2_lt _ _ hdy₁ hdy₂).mpr h)
  rw [strLt_append_left, strLt_cons_same]
  rcases hlex with h | ⟨rfl, hlex⟩
  · exact strLt_append_of_lt _ _ _ _ (pad2_length_eq _ _)
      ((pad2_lt _ _ hhh₁ hhh₂).mpr h)
  rw [strLt_append_left, strLt_cons_same]
  rcases hlex with h | ⟨rfl, hlex⟩
  · exact strLt_append_of_lt _ _ _ _ (pad2_length_eq _ _)
      ((pad2_lt _ _ hmi₁ hmi₂).mpr h)
  rw [strLt_append_left, strLt_cons_same]
  exact (pad2_lt _ _ hss₁ hss₂).mpr hlex

theorem fmt_mono (t₁ t₂ : Nat) (h₂ : t₂ < maxTs) (hlt : t₁ < t₂) :
    strLt (fmtTs t₁) (fmtTs t₂) = true := by
  have hd₂ : t₂ / 86400 < 2932897 := by
    have : maxTs = 2932897 * 86400 := by norm_num [maxTs]
    omega
  have hd₁ : t₁ / 86400 < 2932897 := by omega
  have hy₁ : (yearFromDays (t₁ / 86400)).1 < 10000 := yearFromDays_year_lt _ hd₁
  have hy₂ : (yearFromDays (t₂ / 86400)).1 < 10000 := yearFromDays_year_lt _ hd₂
  have hdoy₁ := yearFromDays_doy (t₁ / 86400)
  have hdoy₂ := yearFromDays_doy (t₂ / 86400)
  have hmo₁ := mfd_fst_lt (monthLengths (yearFromDays (t₁ / 86400)).1)
    (yearFromDays (t₁ / 86400)).2
    (by rw [monthLengths_sum]; exact hdoy₁)
  have hmo₂ := mfd_fst_lt (monthLengths (yearFromDays (t₂ / 86400)).1)
    (yearFromDays (t₂ / 86400)).2
    (by rw [monthLengths_sum]; exact hdoy₂)
  rw [monthLengths_length] at hmo₁ hmo₂
  have hdy₁ := mfd_snd_lt (monthLengths (yearFromDays (t₁ / 86400)).1)
    (yearFromDays (t₁ / 86400)).2
    (by rw [monthLengths_sum]; exact hdoy₁) (monthLengths_le _)
  have hdy₂ := mfd_snd_lt (monthLengths (yearFromDays (t₂ / 86400)).1)
    (yearFromDays (t₂ / 86400)).2
    (by rw [monthLengths_sum]; exact hdoy₂) (monthLengths_le _)
  unfold fmtTs
  apply fmtParts_lt <;> try omega
  by_cases hdays : t₁ / 86400 = t₂ / 86400
  · right
    refine ⟨by rw [hdays], ?_⟩
    rw [hdays]
    right
    refine ⟨rfl, ?_⟩
    right
    refine ⟨rfl, ?_⟩
    have hrem : t₁ % 86400 < t₂ % 86400 := by omega
    omega
  · have hdlt : t₁ / 86400 < t₂ / 86400 := by omega
    rcases yearFromDays_mono _ _ hdlt with h | ⟨hyeq, hdoylt⟩
    · left; exact h
    · right
      refine ⟨hyeq, ?_⟩
      rw [hyeq]
      have := mfd_mono (monthLengths (yearFromDays (t₂ / 86400)).1)
        (yearFromDays (t₁ / 86400)).2 (yearFromDays (t₂ / 86400)).2 hdoylt
        (by rw [monthLengths_sum]; exact hdoy₂)
      rcases this with h | ⟨hmeq, hdlt2⟩
      · left; omega
      · right
        exact ⟨by omega, by left; omega⟩

theorem fmtTs_lt (t₁ t₂ : Nat) (h₁ : t₁ < maxTs) (h₂ : t₂ < maxTs) :
    strLt (fmtTs t₁) (fmtTs t₂) = decide (t₁ < t₂) := by
  rcases Nat.lt_trichotomy t₁ t₂ with h | h | h
  · rw [fmt_mono t₁ t₂ h₂ h]
    simp [h]
  · subst h
    rw [strLt_irrefl]
    simp
  · rw [strLt_asymm _ _ (fmt_mono t₂ t₁ h₁ h)]
    simp
    omega

/-- Core correctness of `_compare_timestamp_with_current`: for representable
timestamps the formatted-string comparison decides exactly the numeric
strictly-before relation, returning `True`/`False` accordingly. -/
theorem compare_correct (t now : Nat) (ht : t < maxTs) (hnow : now < maxTs) :
    _compare_timestamp_with_current t now = .ok (some (decide (t < now))) := by
  unfold _compare_timestamp_with_current _decode_timestamp
  rw [if_pos ht]
  simp only [strGe]
  rw [fmtTs_lt t now ht hnow]
  by_cases h : t < now
  · simp [h]
  · have hfalse : decide (t < now) = false := by simp [h]
    rw [hfalse]
    simp only [Bool.false_eq_true, if_false]
    rcases Nat.lt_or_ge now t with h2 | h2
    · have : strLt (fmtTs now) (fmtTs t) = true := by
        rw [fmtTs_lt now t hnow ht]
        simp [h2]
      simp [this]
    · have heq : t = now := by omega
      subst heq
      simp

/-- The two comparison branches are exhaustive for arbitrary inputs: the
Python fall-through that would implicitly return `None` is unreachable. -/
theorem compare_never_fallthrough (t now : Nat) :
    _compare_timestamp_with_current t now ≠ .ok none := by
  unfold _compare_timestamp_with_current _decode_timestamp
  by_cases ht : t < maxTs
  · rw [if_pos ht]
    simp only [strGe]
    by_cases h1 : strLt (fmtTs t) (fmtTs now) = true
    · simp [h1]
    · have h1f : strLt (fmtTs t) (fmtTs now) = false := by
        rwa [Bool.not_eq_true] at h1
      rcases strLt_trichotomy _ _ h1f with h2 | h2
      · simp [h1f, h2]
      · rw [h2]
        simp [strLt_irrefl]
  · rw [if_neg ht]
    intro hc
    cases hc

/-! ### JWT decoding (`_utils._decode_jwt`)

`token.split(".")` must yield exactly three segments; the middle one is
base64url-decoded after appending `"=="` (`base64.urlsafe_b64decode` in lax
mode drops non-alphabet characters, including padding, and rejects inputs
whose data-character count is 1 mod 4), decoded as UTF-8 and parsed as JSON.
Any failure is a `ValueError` (tuple-unpacking error, `binascii.Error`,
`UnicodeDecodeError` and `json.JSONDecodeError` are all `ValueError`s), which
the `except ValueError` clause re-raises.

The JSON layer is modelled on the fragment the library actually exchanges:
objects whose keys are strings and whose values are non-negative integers or
strings, in ASCII (multi-byte UTF-8 and escape sequences inside string
literals are out of the modelled fragment; the parser rejects them where
Python would process them). -/

/-- Python `str.split('.')`. -/
def splitDot : List Char → List (List Char)
  | [] => [[]]
  | c :: r =>
      if c = '.' then [] :: splitDot r
      else
        match splitDot r with
        | [] => [[c]]
        | g :: gs => (c :: g) :: gs

/-- Base64url alphabet character of a 6-bit value. -/
def b64CharOf (n : Nat) : Char :=
  if n < 26 then Char.ofNat (65 + n)
  else if n < 52 then Char.ofNat (97 + (n - 26))
  else if n < 62 then Char.ofNat (48 + (n - 52))
  else if n = 62 then Char.ofNat 45
  else Char.ofNat 95

/-- 6-bit value of a base64 character accepted by `urlsafe_b64decode`
(standard and url-safe alphabets; anything else, `=` included, is dropped by
the lax decoder). -/
def b64ValOf (c : Char) : Option Nat :=
  let v := c.toNat
  if 65 ≤ v ∧ v ≤ 90 then some (v - 65)
  else if 97 ≤ v ∧ v ≤ 122 then some (v - 97 + 26)
  else if 48 ≤ v ∧ v ≤ 57 then some (v - 48 + 52)
  else if v = 45 ∨ v = 43 then some 62
  else if v = 95 ∨ v = 47 then some 63
  else none

/-- Unpadded base64url encoding of a byte string (the form JWT payload
segments take). -/
def b64encode : List Nat → List Char
  | [] => []
  | [a] => [b64CharOf (a / 4), b64CharOf (a % 4 * 16)]
  | [a, b] =>
      [b64CharOf (a / 4), b64CharOf (a % 4 * 16 + b / 16), b64CharOf (b % 16 * 4)]
  | a :: b :: c :: rest =>
      b64CharOf (a / 4) :: b64CharOf (a % 4 * 16 + b / 16) ::
        b64CharOf (b % 16 * 4 + c / 64) :: b64CharOf (c % 64) :: b64encode rest

/-- CPython's lax `binascii.a2b_base64` state machine over the characters of
the (already ASCII) input.  `qp` is the position inside the current quad
(0–3), `left` the pending bits of the previous data character, `pads` the
current run of pad characters seen while `qp ≥ 2` (reset by every data
character; pads at `qp < 2` are ignored without touching the counter, as the
short-circuit in the C code does).  A pad run completing a quad (`qp ≥ 2`
and `qp + pads + 1 ≥ 4`) terminates decoding and discards the remaining
input; other non-alphabet characters are skipped; if the input ends with an
incomplete quad (`qp ≠ 0`) the call raises `binascii.Error` (a
`ValueError`). -/
def a2bBase64Aux : List Char → Nat → Nat → Nat → Option (List Nat)
  | [], qp, _, _ => if qp = 0 then some [] else none
  | c :: rest, qp, left, pads =>
      if c.toNat = 61 then
        if 2 ≤ qp then
          if 4 ≤ qp + (pads + 1) then some []
          else a2bBase64Aux rest qp left (pads + 1)
        else a2bBase64Aux rest qp left pads
      else
        match b64ValOf c with
        | none => a2bBase64Aux rest qp left pads
        | some v =>
            match qp with
            | 0 => a2bBase64Aux rest 1 v 0
            | 1 => (a2bBase64Aux rest 2 (v % 16) 0).map
                     (fun bs => (left * 4 + v / 16) :: bs)
            | 2 => (a2bBase64Aux rest 3 (v % 4) 0).map
                     (fun bs => (left * 16 + v / 4) :: bs)
            | _ => (a2bBase64Aux rest 0 0 0).map
                     (fun bs => (left * 64 + v) :: bs)

/-- `base64.urlsafe_b64decode` applied to a Python `str`:
`_bytes_from_decode_data` ASCII-encodes the string first (any character
above 127 raises `ValueError`), `-`/`_` are translated into `+`/`/`
(folded into `b64ValOf`), and the result runs through the lax
`a2b_base64` machine. -/
def b64decodeLax (cs : List Char) : Option (List Nat) :=
  if cs.all (fun c => decide (c.toNat < 128)) then a2bBase64Aux cs 0 0 0
  else none

/-- JSON scalar values of the modelled fragment: non-negative integers and
ASCII strings (as byte lists). -/
inductive JsonVal where
  | num (n : Nat)
  | str (s : List Nat)
deriving DecidableEq, Repr

/-- A decoded JWT payload: an association list of string keys (byte lists)
and values, in document order. -/
abbrev Claims := List (List Nat × JsonVal)

/-- Decimal digit bytes of `n`, most significant first.  `fuel ≥ n` bounds
the recursion (one digit is emitted per step). -/
def natBytesAux : Nat → Nat → List Nat
  | 0, _ => []
  | fuel + 1, n =>
      if n < 10 then [48 + n] else natBytesAux fuel (n / 10) ++ [48 + n % 10]

/-- Decimal rendering of a natural number as ASCII bytes. -/
def natBytes (n : Nat) : List Nat := natBytesAux (n + 1) n

/-- Serialized JSON scalar. -/
def serializeVal : JsonVal → List Nat
  | .num n => natBytes n
  | .str s => 34 :: s ++ [34]

/-- Serialized `"key":value` entries, comma-separated. -/
def serializeEntries : Claims → List Nat
  | [] => []
  | [(k, v)] => 34 :: k ++ 34 :: 58 :: serializeVal v
  | (k, v) :: rest =>
      34 :: k ++ 34 :: 58 :: serializeVal v ++ 44 :: serializeEntries rest

/-- Compact JSON serialization of a claims object. -/
def serializeClaims (c : Claims) : List Nat := 123 :: serializeEntries c ++ [125]

/-- JSON insignificant whitespace. -/
def isWsByte (b : Nat) : Bool := b == 32 || b == 9 || b == 10 || b == 13

/-- Skips insignificant whitespace. -/
def skipWs : List Nat → List Nat
  | [] => []
  | b :: r => if isWsByte b then skipWs r else b :: r

/-- Parses a string-literal body up to the closing quote.  Escape sequences
and non-ASCII bytes are outside the modelled fragment; control characters are
rejected as Python does. -/
def parseStrBody : List Nat → Option (List Nat × List Nat)
  | [] => none
  | b :: r =>
      if b = 34 then some ([], r)
      else if 32 ≤ b ∧ b < 128 ∧ b ≠ 92 then
        match parseStrBody r with
        | none => none
        | some p => some (b :: p.1, p.2)
      else none

/-- ASCII decimal digit test on a byte. -/
def isDigitByte (b : Nat) : Bool := 48 ≤ b && b ≤ 57

/-- Consumes a maximal run of digits, accumulating their value. -/
def parseDigits : List Nat → Nat → Nat × List Nat
  | [], acc => (acc, [])
  | b :: r, acc =>
      if isDigitByte b then parseDigits r (10 * acc + (b - 48)) else (acc, b :: r)

/-- Parses a scalar JSON value (string or non-negative integer).  Python's
JSON number token is `0 | [1-9][0-9]*` (plus fraction/exponent, outside the
modelled fragment): a leading `0` is a complete token by itself, and any
digit following it is left in the remainder, where the surrounding
structural check then fails exactly as Python's does. -/
def parseVal : List Nat → Option (JsonVal × List Nat)
  | [] => none
  | b :: r =>
      if b = 34 then
        match parseStrBody r with
        | none => none
        | some p => some (.str p.1, p.2)
      else if isDigitByte b then
        if b = 48 then some (.num 0, r)
        else
          let p := parseDigits (b :: r) 0
          some (.num p.1, p.2)
      else none

/-- Parses one `"key" : value` entry. -/
def parseEntry (l : List Nat) : Option ((List Nat × JsonVal) × List Nat) :=
  match skipWs l with
  | [] => none
  | b :: r =>
      if b = 34 then
        match parseStrBody r with
        | none => none
        | some (k, r1) =>
            match skipWs r1 with
            | [] => none
            | b2 :: r2 =>
                if b2 = 58 then
                  match parseVal (skipWs r2) with
                  | none => none
                  | some (v, r3) => some ((k, v), r3)
                else none
      else none

/-- Parses a non-empty comma-separated entry sequence terminated by `}`.
`fuel` bounds the entry count (each entry consumes at least one byte, so the
input length suffices). -/
def parseItems : Nat → List Nat → Option (Claims × List Nat)
  | 0, _ => none
  | fuel + 1, l =>
      match parseEntry l with
      | none => none
      | some (e, r) =>
          match skipWs r with
          | [] => none
          | b :: r2 =>
              if b = 44 then
                match parseItems fuel r2 with
                | none => none
                | some p => some (e :: p.1, p.2)
              else if b = 125 then some ([e], r2)
              else none

/-- A decoded JWT payload as `json.loads` returns it: a claims object, or a
top-level non-object value (`json.loads("5")` is the integer `5`, which
`_decode_jwt` returns as-is — nothing in the code requires a map). -/
inductive JwtPayload where
  | obj (claims : Claims)
  | scalar (v : JsonVal)
deriving DecidableEq, Repr

/-- `json.loads` on the modelled fragment: an object, or a top-level scalar
of the fragment (string or non-negative integer), with the whole input
consumed.  Top-level values outside the fragment (arrays, floats, literals,
negative numbers, escapes) fall outside the modelled subset and are not
produced. -/
def jsonParse (l : List Nat) : Option JwtPayload :=
  match skipWs l with
  | [] => none
  | b :: r =>
      if b = 123 then
        match skipWs r with
        | [] => none
        | b2 :: r2 =>
            if b2 = 125 then (if skipWs r2 = [] then some (.obj []) else none)
            else
              match parseItems (b2 :: r2).length (b2 :: r2) with
              | none => none
              | some (c, rest) =>
                  if skipWs rest = [] then some (.obj c) else none
      else
        match parseVal (b :: r) with
        | none => none
        | some (v, rest) => if skipWs rest = [] then some (.scalar v) else none

/-- `_utils._decode_jwt`: split into three dot-separated segments, decode the
middle one with `urlsafe_b64decode(payload + "==")`, parse the JSON payload.
Every failure mode is a `ValueError`, printed and re-raised by the
`except ValueError` handler. -/
def _decode_jwt (token : List Char) : Except PyErr JwtPayload :=
  match splitDot token with
  | [_, p, _] =>
      match b64decodeLax (p ++ [Char.ofNat 61, Char.ofNat 61]) with
      | none => .error .valueError
      | some bytes =>
          match jsonParse bytes with
          | none => .error .valueError
          | some payload => .ok payload
  | _ => .error .valueError

/-- Python `dict` lookup for a dict built from an entry list in document
order: the last occurrence of a key wins. -/
def dictGet (m : Claims) (k : List Nat) : Option JsonVal :=
  match m with
  | [] => none
  | (k2, v) :: rest =>
      match dictGet rest k with
      | some r => some r
      | none => if k2 = k then some v else none

/-- The byte string `"exp"`. -/
def expKey : List Nat := [101, 120, 112]

/-- `OAuthClient.is_token_expired`: `None` for a `None` token; otherwise
decodes the payload and reads `jwt.get('exp')`.  A non-dict payload raises
`AttributeError` at `.get`; an absent (`None`) or non-numeric `exp` makes
`datetime.utcfromtimestamp` inside `_decode_timestamp` raise `TypeError`. -/
def is_token_expired (token : Option (List Char)) (now : Nat) :
    Except PyErr (Option Bool) :=
  match token with
  | none => .ok none
  | some tok =>
      match _decode_jwt tok with
      | .error e => .error e
      | .ok (.scalar _) => .error .attributeError
      | .ok (.obj jwt) =>
          match dictGet jwt expKey with
          | none => .error .typeError
          | some (.str _) => .error .typeError
          | some (.num e) => _compare_timestamp_with_current e now

/-- A three-segment token with the given header/signature segments and a
base64url-encoded payload. -/
def mkToken (h : List Char) (payload : List Nat) (s : List Char) : List Char :=
  h ++ '.' :: b64encode payload ++ '.' :: s

/-! ### Round-trip lemmas: token splitting and base64 -/

theorem splitDot_no_dot : ∀ l : List Char, '.' ∉ l → splitDot l = [l] := by
  intro l
  induction l with
  | nil => intro _; rfl
  | cons c r ih =>
      intro h
      have hc : ¬ (c = '.') := fun hc => h (by simp [hc])
      have hr : '.' ∉ r := fun hr => h (by simp [hr])
      simp only [splitDot, if_neg hc, ih hr]

theorem splitDot_front : ∀ (h t : List Char), '.' ∉ h →
    splitDot (h ++ '.' :: t) = h :: splitDot t := by
  intro h
  induction h with
  | nil =>
      intro t _
      simp [splitDot]
  | cons c hs ih =>
      intro t hnd
      have hc : ¬ (c = '.') := fun hc => hnd (by simp [hc])
      have hh : '.' ∉ hs := fun hr => hnd (by simp [hr])
      simp only [List.cons_append, splitDot, if_neg hc, List.append_eq, ih t hh]

theorem splitDot_three (h p s : List Char) (hh : '.' ∉ h) (hp : '.' ∉ p)
    (hs : '.' ∉ s) : splitDot (h ++ '.' :: (p ++ '.' :: s)) = [h, p, s] := by
  rw [splitDot_front h _ hh, splitDot_front p _ hp, splitDot_no_dot s hs]

theorem b64ValOf_CharOf : ∀ n, n < 64 → b64ValOf (b64CharOf n) = some n := by
  decide

theorem b64CharOf_ne_dot : ∀ n, n < 64 → ¬ (b64CharOf n = '.') := by
  decide

theorem b64CharOf_toNat_ne_pad : ∀ n, n < 64 → ¬ ((b64CharOf n).toNat = 61) := by
  decide

theorem b64CharOf_toNat_ascii : ∀ n, n < 64 → (b64CharOf n).toNat < 128 := by
  decide

theorem a2b_pad_low (rest : List Char) (qp left pads : Nat) (h : qp < 2) :
    a2bBase64Aux (Char.ofNat 61 :: rest) qp left pads =
      a2bBase64Aux rest qp left pads := by
  simp only [a2bBase64Aux, if_pos (by decide : (Char.ofNat 61).toNat = 61),
    if_neg (by omega : ¬ (2 ≤ qp))]

theorem a2b_pad_more (rest : List Char) (qp left pads : Nat) (h2 : 2 ≤ qp)
    (h4 : qp + (pads + 1) < 4) :
    a2bBase64Aux (Char.ofNat 61 :: rest) qp left pads =
      a2bBase64Aux rest qp left (pads + 1) := by
  simp only [a2bBase64Aux, if_pos (by decide : (Char.ofNat 61).toNat = 61),
    if_pos h2, if_neg (by omega : ¬ (4 ≤ qp + (pads + 1)))]

theorem a2b_pad_done (rest : List Char) (qp left pads : Nat) (h2 : 2 ≤ qp)
    (h4 : 4 ≤ qp + (pads + 1)) :
    a2bBase64Aux (Char.ofNat 61 :: rest) qp left pads = some [] := by
  simp only [a2bBase64Aux, if_pos (by decide : (Char.ofNat 61).toNat = 61),
    if_pos h2, if_pos h4]

theorem a2b_data0 (c : Char) (rest : List Char) (left pads v : Nat)
    (h61 : ¬ (c.toNat = 61)) (hv : b64ValOf c = some v) :
    a2bBase64Aux (c :: rest) 0 left pads = a2bBase64Aux rest 1 v 0 := by
  simp only [a2bBase64Aux, if_neg h61, hv]

theorem a2b_data1 (c : Char) (rest : List Char) (left pads v : Nat)
    (h61 : ¬ (c.toNat = 61)) (hv : b64ValOf c = some v) :
    a2bBase64Aux (c :: rest) 1 left pads =
      (a2bBase64Aux rest 2 (v % 16) 0).map (fun bs => (left * 4 + v / 16) :: bs) := by
  simp only [a2bBase64Aux, if_neg h61, hv]

theorem a2b_data2 (c : Char) (rest : List Char) (left pads v : Nat)
    (h61 : ¬ (c.toNat = 61)) (hv : b64ValOf c = some v) :
    a2bBase64Aux (c :: rest) 2 left pads =
      (a2bBase64Aux rest 3 (v % 4) 0).map (fun bs => (left * 16 + v / 4) :: bs) := by
  simp only [a2bBase64Aux, if_neg h61, hv]

theorem a2b_data3 (c : Char) (rest : List Char) (left pads v : Nat)
    (h61 : ¬ (c.toNat = 61)) (hv : b64ValOf c = some v) :
    a2bBase64Aux (c :: rest) 3 left pads =
      (a2bBase64Aux rest 0 0 0).map (fun bs => (left * 64 + v) :: bs) := by
  simp only [a2bBase64Aux, if_neg h61, hv]

theorem a2b_encode_pads : ∀ bs : List Nat, (∀ x ∈ bs, x < 256) →
    a2bBase64Aux (b64encode bs ++ [Char.ofNat 61, Char.ofNat 61]) 0 0 0 =
      some bs := by
  intro bs
  induction bs using b64encode.induct with
  | case1 =>
      intro _
      decide
  | case2 a =>
      intro h
      have ha : a < 256 := h a (by simp)
      simp only [b64encode, List.cons_append, List.nil_append]
      rw [a2b_data0 _ _ 0 0 (a / 4) (b64CharOf_toNat_ne_pad _ (by omega))
            (b64ValOf_CharOf _ (by omega)),
          a2b_data1 _ _ _ 0 (a % 4 * 16) (b64CharOf_toNat_ne_pad _ (by omega))
            (b64ValOf_CharOf _ (by omega))]
      have e1 : a % 4 * 16 % 16 = 0 := by omega
      have e2 : a / 4 * 4 + a % 4 * 16 / 16 = a := by omega
      rw [e1, e2]
      rw [a2b_pad_more _ _ _ _ (by omega) (by omega),
          a2b_pad_done _ _ _ _ (by omega) (by omega)]
      rfl
  | case3 a b =>
      intro h
      have ha : a < 256 := h a (by simp)
      have hb : b < 256 := h b (by simp)
      simp only [b64encode, List.cons_append, List.nil_append]
      rw [a2b_data0 _ _ 0 0 (a / 4) (b64CharOf_toNat_ne_pad _ (by omega))
            (b64ValOf_CharOf _ (by omega)),
          a2b_data1 _ _ _ 0 (a % 4 * 16 + b / 16)
            (b64CharOf_toNat_ne_pad _ (by omega)) (b64ValOf_CharOf _ (by omega)),
          a2b_data2 _ _ _ 0 (b % 16 * 4) (b64CharOf_toNat_ne_pad _ (by omega))
            (b64ValOf_CharOf _ (by omega))]
      rw [a2b_pad_done _ _ _ _ (by omega) (by omega)]
      have e1 : a / 4 * 4 + (a % 4 * 16 + b / 16) / 16 = a := by omega
      have e2 : (a % 4 * 16 + b / 16) % 16 * 16 + b % 16 * 4 / 4 = b := by omega
      rw [e1, e2]
      rfl
  | case4 a b c rest ih =>
      intro h
      have ha : a < 256 := h a (by simp)
      have hb : b < 256 := h b (by simp)
      have hc : c < 256 := h c (by simp)
      have hr : ∀ x ∈ rest, x < 256 := fun x hx => h x (by simp [hx])
      simp only [b64encode, List.cons_append]
      rw [a2b_data0 _ _ 0 0 (a / 4) (b64CharOf_toNat_ne_pad _ (by omega))
            (b64ValOf_CharOf _ (by omega)),
          a2b_data1 _ _ _ 0 (a % 4 * 16 + b / 16)
            (b64CharOf_toNat_ne_pad _ (by omega)) (b64ValOf_CharOf _ (by omega)),
          a2b_data2 _ _ _ 0 (b % 16 * 4 + c / 64)
            (b64CharOf_toNat_ne_pad _ (by omega)) (b64ValOf_CharOf _ (by omega)),
          a2b_data3 _ _ _ 0 (c % 64) (b64CharOf_toNat_ne_pad _ (by omega))
            (b64ValOf_CharOf _ (by omega))]
      rw [ih hr]
      have e1 : a / 4 * 4 + (a % 4 * 16 + b / 16) / 16 = a := by omega
      have e2 : (a % 4 * 16 + b / 16) % 16 * 16 + (b % 16 * 4 + c / 64) / 4 = b := by
        omega
      have e3 : (b % 16 * 4 + c / 64) % 4 * 64 + c % 64 = c := by omega
      rw [e1, e2, e3]
      rfl

theorem b64encode_ascii : ∀ bs : List Nat, (∀ x ∈ bs, x < 256) →
    ∀ c ∈ b64encode bs, c.toNat < 128 := by
  intro bs
  induction bs using b64encode.induct with
  | case1 => intro _ c hcm; simp [b64encode] at hcm
  | case2 a =>
      intro h c hcm
      have ha : a < 256 := h a (by simp)
      simp only [b64encode, List.mem_cons, List.not_mem_nil, or_false] at hcm
      rcases hcm with hcm | hcm <;>
        (subst hcm; exact b64CharOf_toNat_ascii _ (by omega))
  | case3 a b =>
      intro h c hcm
      have ha : a < 256 := h a (by simp)
      have hb : b < 256 := h b (by simp)
      simp only [b64encode, List.mem_cons, List.not_mem_nil, or_false] at hcm
      rcases hcm with hcm | hcm | hcm <;>
        (subst hcm; exact b64CharOf_toNat_ascii _ (by omega))
  | case4 a b c2 rest ih =>
      intro h c hcm
      have ha : a < 256 := h a (by simp)
      have hb : b < 256 := h b (by simp)
      have hc2 : c2 < 256 := h c2 (by simp)
      have hr : ∀ x ∈ rest, x < 256 := fun x hx => h x (by simp [hx])
      simp only [b64encode, List.mem_cons] at hcm
      rcases hcm with hcm | hcm | hcm | hcm | hcm
      · subst hcm; exact b64CharOf_toNat_ascii _ (by omega)
      · subst hcm; exact b64CharOf_toNat_ascii _ (by omega)
      · subst hcm; exact b64CharOf_toNat_ascii _ (by omega)
      · subst hcm; exact b64CharOf_toNat_ascii _ (by omega)
      · exact ih hr c hcm

theorem b64_roundtrip (bs : List Nat) (h : ∀ x ∈ bs, x < 256) :
    b64decodeLax (b64encode bs ++ [Char.ofNat 61, Char.ofNat 61]) = some bs := by
  unfold b64decodeLax
  rw [if_pos]
  · exact a2b_encode_pads bs h
  · rw [List.all_eq_true]
    intro c hcm
    simp only [List.mem_append, List.mem_cons, List.not_mem_nil, or_false] at hcm
    rcases hcm with hcm | hcm | hcm
    · simpa using b64encode_ascii bs h c hcm
    · subst hcm; decide
    · subst hcm; decide

theorem b64encode_no_dot (bs : List Nat) (h : ∀ x ∈ bs, x < 256) :
    '.' ∉ b64encode bs := by
  induction bs using b64encode.induct with
  | case1 => simp [b64encode]
  | case2 a =>
      have ha : a < 256 := h a (by simp)
      simp only [b64encode]
      intro hc
      simp only [List.mem_cons, List.not_mem_nil, or_false] at hc
      rcases hc with hc | hc
      · exact b64CharOf_ne_dot _ (by omega) hc.symm
      · exact b64CharOf_ne_dot _ (by omega) hc.symm
  | case3 a b =>
      have ha : a < 256 := h a (by simp)
      have hb : b < 256 := h b (by simp)
      simp only [b64encode]
      intro hc
      simp only [List.mem_cons, List.not_mem_nil, or_false] at hc
      rcases hc with hc | hc | hc
      · exact b64CharOf_ne_dot _ (by omega) hc.symm
      · exact b64CharOf_ne_dot _ (by omega) hc.symm
      · exact b64CharOf_ne_dot _ (by omega) hc.symm
  | case4 a b c rest ih =>
      have ha : a < 256 := h a (by simp)
      have hb : b < 256 := h b (by simp)
      have hc : c < 256 := h c (by simp)
      have hr : ∀ x ∈ rest, x < 256 := fun x hx => h x (by simp [hx])
      simp only [b64encode]
      intro hmem
      simp only [List.mem_cons] at hmem
      rcases hmem with h1 | h1 | h1 | h1 | h1
      · exact b64CharOf_ne_dot _ (by omega) h1.symm
      · exact b64CharOf_ne_dot _ (by omega) h1.symm
      · exact b64CharOf_ne_dot _ (by omega) h1.symm
      · exact b64CharOf_ne_dot _ (by omega) h1.symm
      · exact ih hr h1

/-! ### Round-trip lemmas: JSON fragment -/

/-- A byte that may appear verbatim inside a modelled JSON string literal:
printable ASCII other than `"` and `\`. -/
def cleanByte (b : Nat) : Bool := decide (32 ≤ b ∧ b < 128 ∧ b ≠ 34 ∧ b ≠ 92)

/-- All bytes of the string are clean. -/
def cleanStr (s : List Nat) : Bool := s.all cleanByte

/-- Scalar values of the modelled fragment with clean string contents. -/
def valClean : JsonVal → Bool
  | .num _ => true
  | .str s => cleanStr s

/-- Every key and every string value of the claims object is clean. -/
def claimsClean (c : Claims) : Bool := c.all fun e => cleanStr e.1 && valClean e.2

/-- The input does not begin with a decimal digit. -/
def noDigitHead : List Nat → Bool
  | [] => true
  | b :: _ => !isDigitByte b

theorem isWsByte_false (b : Nat) (h : 33 ≤ b) : isWsByte b = false := by
  unfold isWsByte
  simp only [Bool.or_eq_false_iff, beq_eq_false_iff_ne, ne_eq]
  omega

theorem skipWs_cons_ge (b : Nat) (r : List Nat) (h : 33 ≤ b) :
    skipWs (b :: r) = b :: r := by
  unfold skipWs
  rw [isWsByte_false b h]
  simp

theorem parseStrBody_append : ∀ (k rest : List Nat), cleanStr k = true →
    parseStrBody (k ++ 34 :: rest) = some (k, rest) := by
  intro k
  induction k with
  | nil =>
      intro rest _
      simp [parseStrBody]
  | cons b k ih =>
      intro rest hclean
      simp only [cleanStr, List.all_cons, Bool.and_eq_true] at hclean
      obtain ⟨hb, hk⟩ := hclean
      simp only [cleanByte, decide_eq_true_eq] at hb
      simp only [List.cons_append, parseStrBody, if_neg (by omega : ¬ (b = 34)),
        if_pos (by omega : 32 ≤ b ∧ b < 128 ∧ b ≠ 92), List.append_eq]
      rw [ih rest hk]

theorem parseDigits_run : ∀ (ds : List Nat), (∀ x ∈ ds, isDigitByte x = true) →
    ∀ (rest : List Nat) (acc : Nat), noDigitHead rest = true →
    parseDigits (ds ++ rest) acc =
      (ds.foldl (fun a b => 10 * a + (b - 48)) acc, rest) := by
  intro ds
  induction ds with
  | nil =>
      intro _ rest acc hrest
      cases rest with
      | nil => rfl
      | cons b r =>
          simp only [noDigitHead, Bool.not_eq_true'] at hrest
          simp [parseDigits, hrest]
  | cons d ds ih =>
      intro hds rest acc hrest
      have hd : isDigitByte d = true := hds d (by simp)
      simp only [List.cons_append, parseDigits, if_pos hd, List.foldl_cons]
      exact ih (fun x hx => hds x (by simp [hx])) rest _ hrest

theorem foldl_scale : ∀ (ds : List Nat) (acc : Nat),
    ds.foldl (fun a b => 10 * a + (b - 48)) acc =
      acc * 10 ^ ds.length + ds.foldl (fun a b => 10 * a + (b - 48)) 0 := by
  intro ds
  induction ds with
  | nil => intro acc; simp
  | cons b ds ih =>
      intro acc
      simp only [List.foldl_cons, List.length_cons]
      rw [ih (10 * acc + (b - 48)), ih (10 * 0 + (b - 48))]
      rw [pow_succ]
      ring

theorem natBytesAux_digits : ∀ (fuel n : Nat), ∀ x ∈ natBytesAux fuel n,
    isDigitByte x = true := by
  intro fuel
  induction fuel with
  | zero => intro n x hx; simp [natBytesAux] at hx
  | succ f ih =>
      intro n x hx
      simp only [natBytesAux] at hx
      split at hx
      · simp only [List.mem_singleton] at hx
        subst hx
        simp only [isDigitByte, Bool.and_eq_true, decide_eq_true_eq]
        omega
      · simp only [List.mem_append, List.mem_singleton] at hx
        rcases hx with hx | hx
        · exact ih (n / 10) x hx
        · subst hx
          simp only [isDigitByte, Bool.and_eq_true, decide_eq_true_eq]
          omega

theorem natBytesAux_val : ∀ (fuel n : Nat), n < fuel →
    (natBytesAux fuel n).foldl (fun a b => 10 * a + (b - 48)) 0 = n := by
  intro fuel
  induction fuel with
  | zero => intro n h; omega
  | succ f ih =>
      intro n h
      by_cases hn : n < 10
      · simp only [natBytesAux, if_pos hn, List.foldl_cons, List.foldl_nil]
        omega
      · simp only [natBytesAux, if_neg hn, List.foldl_append, List.foldl_cons,
          List.foldl_nil]
        rw [ih (n / 10) (by omega)]
        omega

theorem natBytes_ne_nil (n : Nat) : natBytes n ≠ [] := by
  unfold natBytes natBytesAux
  split <;> simp

theorem natBytes_digits (n : Nat) : ∀ x ∈ natBytes n, isDigitByte x = true :=
  natBytesAux_digits (n + 1) n

theorem natBytes_val (n : Nat) :
    (natBytes n).foldl (fun a b => 10 * a + (b - 48)) 0 = n :=
  natBytesAux_val (n + 1) n (Nat.lt_succ_self n)

theorem natBytesAux_head_pos : ∀ (fuel n : Nat), 0 < n → n < fuel →
    ∃ b r, natBytesAux fuel n = b :: r ∧ 48 < b ∧ b ≤ 57 := by
  intro fuel
  induction fuel with
  | zero => intro n _ h; omega
  | succ f ih =>
      intro n hpos h
      by_cases hn : n < 10
      · refine ⟨48 + n, [], ?_, by omega, by omega⟩
        simp [natBytesAux, hn]
      · obtain ⟨b, r, hb, hgt, hle⟩ := ih (n / 10) (by omega) (by omega)
        refine ⟨b, r ++ [48 + n % 10], ?_, hgt, hle⟩
        simp [natBytesAux, hn, hb]

theorem parseVal_num (n : Nat) (rest : List Nat) (hrest : noDigitHead rest = true) :
    parseVal (natBytes n ++ rest) = some (.num n, rest) := by
  by_cases hn : n = 0
  · subst hn
    have h0 : natBytes 0 = [48] := rfl
    rw [h0]
    simp [parseVal, isDigitByte]
  · obtain ⟨b, r, hb, hgt, hle⟩ :=
      natBytesAux_head_pos (n + 1) n (by omega) (Nat.lt_succ_self n)
    have hb2 : natBytes n = b :: r := hb
    have hd : isDigitByte b = true := by
      simp only [isDigitByte, Bool.and_eq_true, decide_eq_true_eq]
      omega
    have hb34 : ¬ (b = 34) := by omega
    have hb48 : ¬ (b = 48) := by omega
    have hpd : parseDigits (natBytes n ++ rest) 0 = (n, rest) := by
      rw [parseDigits_run (natBytes n) (natBytes_digits n) rest 0 hrest,
        natBytes_val]
    rw [hb2] at hpd
    rw [List.cons_append] at hpd
    rw [hb2, List.cons_append]
    simp only [parseVal, if_neg hb34, if_pos hd, if_neg hb48]
    rw [hpd]

theorem parseVal_str (s rest : List Nat) (hs : cleanStr s = true) :
    parseVal (34 :: (s ++ 34 :: rest)) = some (.str s, rest) := by
  simp only [parseVal]
  rw [parseStrBody_append s rest hs]
  simp

theorem parseVal_serialize (v : JsonVal) (rest : List Nat)
    (hv : valClean v = true) (hrest : noDigitHead rest = true) :
    parseVal (serializeVal v ++ rest) = some (v, rest) := by
  cases v with
  | num n => exact parseVal_num n rest hrest
  | str s =>
      simp only [serializeVal, List.cons_append, List.append_assoc,
        List.cons_append, List.nil_append]
      exact parseVal_str s rest hv

theorem serializeVal_skipWs (v : JsonVal) (rest : List Nat) :
    skipWs (serializeVal v ++ rest) = serializeVal v ++ rest := by
  cases v with
  | num n =>
      cases hb : natBytes n with
      | nil => exact absurd hb (natBytes_ne_nil n)
      | cons b r =>
          have hd : isDigitByte b = true := natBytes_digits n b (by rw [hb]; simp)
          simp only [isDigitByte, Bool.and_eq_true, decide_eq_true_eq] at hd
          simp only [serializeVal, hb, List.cons_append]
          exact skipWs_cons_ge b _ (by omega)
  | str s =>
      simp only [serializeVal, List.cons_append]
      exact skipWs_cons_ge 34 _ (by omega)

theorem parseEntry_serialize (k : List Nat) (v : JsonVal) (rest : List Nat)
    (hk : cleanStr k = true) (hv : valClean v = true)
    (hrest : noDigitHead rest = true) :
    parseEntry (34 :: (k ++ 34 :: 58 :: (serializeVal v ++ rest))) =
      some ((k, v), rest) := by
  have h1 := skipWs_cons_ge 34 (k ++ 34 :: 58 :: (serializeVal v ++ rest))
    (by omega)
  have h2 : parseStrBody (k ++ 34 :: (58 :: (serializeVal v ++ rest))) =
      some (k, 58 :: (serializeVal v ++ rest)) :=
    parseStrBody_append k _ hk
  have h3 := skipWs_cons_ge 58 (serializeVal v ++ rest) (by omega)
  have h4 : parseVal (skipWs (serializeVal v ++ rest)) = some (v, rest) := by
    rw [serializeVal_skipWs]
    exact parseVal_serialize v rest hv hrest
  simp [parseEntry, h1, h2, h3, h4]

theorem parseItems_serialize : ∀ (c : Claims), c ≠ [] → claimsClean c = true →
    ∀ (fuel : Nat) (rest : List Nat), c.length ≤ fuel →
    parseItems fuel (serializeEntries c ++ 125 :: rest) = some (c, rest) := by
  intro c
  induction c with
  | nil => intro h; exact absurd rfl h
  | cons e c ih =>
      intro _ hclean fuel rest hfuel
      obtain ⟨k, v⟩ := e
      simp only [claimsClean, List.all_cons, Bool.and_eq_true] at hclean
      obtain ⟨⟨hk, hv⟩, hc⟩ := hclean
      cases fuel with
      | zero => simp at hfuel
      | succ f =>
          cases c with
          | nil =>
              have hentry := parseEntry_serialize k v (125 :: rest) hk hv
                (by simp [noDigitHead, isDigitByte])
              have hskip := skipWs_cons_ge 125 rest (by omega)
              simp only [serializeEntries, List.cons_append, List.append_assoc,
                List.nil_append]
              simp [parseItems, hentry, hskip]
          | cons e2 c2 =>
              have hentry := parseEntry_serialize k v
                (44 :: (serializeEntries (e2 :: c2) ++ 125 :: rest)) hk hv
                (by simp [noDigitHead, isDigitByte])
              have hskip := skipWs_cons_ge 44
                (serializeEntries (e2 :: c2) ++ 125 :: rest) (by omega)
              have hrec := ih (by simp) (by simp [claimsClean, hc]) f rest
                (by simpa using hfuel)
              simp only [serializeEntries, List.cons_append, List.append_assoc,
                List.nil_append]
              simp [parseItems, hentry, hskip, hrec]

theorem serializeEntries_len : ∀ c : Claims, c.length ≤ (serializeEntries c).length := by
  intro c
  induction c with
  | nil => simp [serializeEntries]
  | cons e c ih =>
      obtain ⟨k, v⟩ := e
      cases c with
      | nil => simp [serializeEntries]
      | cons e2 c2 =>
          simp only [serializeEntries, List.length_cons, List.length_append] at ih ⊢
          omega

theorem serializeEntries_head : ∀ (k : List Nat) (v : JsonVal) (c : Claims),
    ∃ q, serializeEntries ((k, v) :: c) = 34 :: q := by
  intro k v c
  cases c <;> exact ⟨_, rfl⟩

theorem jsonParse_serialize (c : Claims) (hc : claimsClean c = true) :
    jsonParse (serializeClaims c) = some (.obj c) := by
  unfold serializeClaims
  rw [List.cons_append]
  have h1 := skipWs_cons_ge 123 (serializeEntries c ++ [125]) (by omega)
  cases c with
  | nil => rfl
  | cons e c2 =>
      obtain ⟨k, v⟩ := e
      obtain ⟨q, hq⟩ := serializeEntries_head k v c2
      have hclean : claimsClean ((k, v) :: c2) = true := hc
      have hne : ((k, v) :: c2 : Claims) ≠ [] := by simp
      have hlen : ((k, v) :: c2 : Claims).length ≤
          (serializeEntries ((k, v) :: c2) ++ 125 :: ([] : List Nat)).length := by
        have hse := serializeEntries_len ((k, v) :: c2)
        simp only [List.length_cons] at hse ⊢
        simp only [List.length_append, List.length_cons, List.length_nil]
        omega
      have hitems := parseItems_serialize ((k, v) :: c2) hne hclean
        ((serializeEntries ((k, v) :: c2) ++ 125 :: ([] : List Nat)).length)
        [] hlen
      have h2 : skipWs (serializeEntries ((k, v) :: c2) ++ [125]) =
          serializeEntries ((k, v) :: c2) ++ [125] := by
        rw [hq, List.cons_append]
        exact skipWs_cons_ge 34 _ (by omega)
      unfold jsonParse
      rw [h1]
      simp only [if_pos rfl]
      rw [h2, hq, List.cons_append]
      simp only [if_neg (by omega : ¬ (34 = 125))]
      rw [← List.cons_append, ← hq]
      have : (125 : Nat) :: ([] : List Nat) = [125] := rfl
      rw [this] at hitems
      rw [hitems]
      simp [skipWs]

theorem cleanStr_lt (s : List Nat) (hs : cleanStr s = true) :
    ∀ x ∈ s, x < 256 := by
  intro x hx
  have := List.all_eq_true.mp hs x hx
  simp only [cleanByte, decide_eq_true_eq] at this
  omega

theorem natBytes_lt (n : Nat) : ∀ x ∈ natBytes n, x < 256 := by
  intro x hx
  have := natBytes_digits n x hx
  simp only [isDigitByte, Bool.and_eq_true, decide_eq_true_eq] at this
  omega

theorem serializeVal_lt (v : JsonVal) (hv : valClean v = true) :
    ∀ x ∈ serializeVal v, x < 256 := by
  cases v with
  | num n => exact natBytes_lt n
  | str s =>
      intro x hx
      simp only [serializeVal, List.cons_append, List.mem_cons, List.mem_append,
        List.not_mem_nil, or_false] at hx
      rcases hx with hx | hx | hx
      · omega
      · exact cleanStr_lt s hv x hx
      · omega

theorem serializeEntries_lt : ∀ c : Claims, claimsClean c = true →
    ∀ x ∈ serializeEntries c, x < 256 := by
  intro c
  induction c with
  | nil => intro _ x hx; simp [serializeEntries] at hx
  | cons e c ih =>
      intro hc x hx
      obtain ⟨k, v⟩ := e
      simp only [claimsClean, List.all_cons, Bool.and_eq_true] at hc
      obtain ⟨⟨hk, hv⟩, hrest⟩ := hc
      cases c with
      | nil =>
          simp only [serializeEntries, List.cons_append, List.mem_cons,
            List.mem_append] at hx
          rcases hx with hx | hx | hx | hx | hx
          · omega
          · exact cleanStr_lt k hk x hx
          · omega
          · omega
          · exact serializeVal_lt v hv x hx
      | cons e2 c2 =>
          simp only [serializeEntries, List.cons_append, List.mem_cons,
            List.mem_append] at hx
          rcases hx with hx | (hx | hx | hx | hx) | hx | hx
          · omega
          · exact cleanStr_lt k hk x hx
          · omega
          · omega
          · exact serializeVal_lt v hv x hx
          · omega
          · exact ih (by simp [claimsClean, hrest]) x hx

theorem serializeClaims_lt (c : Claims) (hc : claimsClean c = true) :
    ∀ x ∈ serializeClaims c, x < 256 := by
  intro x hx
  simp only [serializeClaims, List.cons_append, List.mem_cons, List.mem_append,
    List.not_mem_nil, or_false] at hx
  rcases hx with hx | hx | hx
  · omega
  · exact serializeEntries_lt c hc x hx
  · omega

/-! ### C7 -/

/-- Token `"h.NQ.s"`: three segments, middle segment the base64url encoding
of the byte string `"5"`. -/
def tokInt : List Char := mkToken ("h".toList) [53] ("s".toList)

/-- C7 (counterexample): the token `"h.NQ.s"` has exactly three segments and
its middle segment is valid base64 of `b"5"` — which is valid JSON but not a
structured claims map — yet `_decode_jwt` does not fail with any error: it
returns the bare number 5 (`json.loads("5")`), because the code never checks
that the parsed payload is a map.  So "fails when the middle segment is not
valid base64/structured data" does not hold as stated. -/
theorem c7_nonmap_payload_cex :
    (splitDot tokInt).length = 3 ∧
    b64decodeLax (b64encode [53] ++ [Char.ofNat 61, Char.ofNat 61]) =
      some [53] ∧
    _decode_jwt tokInt = .ok (.scalar (.num 5)) := by
  refine ⟨by decide, by decide, by decide⟩

/-- C7 (amended): for every well-formed three-segment token whose middle
segment is the base64url encoding of a structured (JSON) claims map,
`_decode_jwt` returns exactly that original claims map (encode-then-decode
round-trips); it fails with `ValueError` (the code's `MalformedTokenError`)
when the token does not have exactly three segments, or when the middle
segment is not decodable base64 (non-ASCII characters, misplaced padding, or
an incomplete final quad).  A middle segment that decodes to valid JSON
which is not a claims map is returned as-is instead of failing. -/
theorem c7_decode_jwt_roundtrip :
    (∀ (hh ss : List Char) (claims : Claims),
        '.' ∉ hh → '.' ∉ ss → claimsClean claims = true →
        (claims.map Prod.fst).Nodup →
        _decode_jwt (mkToken hh (serializeClaims claims) ss) =
          .ok (.obj claims)) ∧
    (∀ tok : List Char, (splitDot tok).length ≠ 3 →
        _decode_jwt tok = .error .valueError) ∧
    (∀ (tok h p s : List Char), splitDot tok = [h, p, s] →
        b64decodeLax (p ++ [Char.ofNat 61, Char.ofNat 61]) = none →
        _decode_jwt tok = .error .valueError) := by
  refine ⟨?_, ?_, ?_⟩
  · intro hh ss claims hdh hds hclean _
    have hbytes : ∀ x ∈ serializeClaims claims, x < 256 :=
      serializeClaims_lt claims hclean
    have hnd : '.' ∉ b64encode (serializeClaims claims) :=
      b64encode_no_dot _ hbytes
    have hshape : mkToken hh (serializeClaims claims) ss =
        hh ++ '.' :: (b64encode (serializeClaims claims) ++ '.' :: ss) := by
      unfold mkToken
      rw [List.append_assoc, List.cons_append]
    rw [hshape]
    have hsplit := splitDot_three hh (b64encode (serializeClaims claims)) ss
      hdh hnd hds
    have hb64 := b64_roundtrip (serializeClaims claims) hbytes
    have hjson := jsonParse_serialize claims hclean
    simp [_decode_jwt, hsplit, hb64, hjson]
  · intro tok hlen
    unfold _decode_jwt
    rcases hsd : splitDot tok with _ | ⟨a, _ | ⟨b, _ | ⟨c, _ | ⟨d, t⟩⟩⟩⟩ <;>
      simp_all
  · intro tok h p s hsd hfail
    unfold _decode_jwt
    rw [hsd]
    simp [hfail]

/-! ### C5, C6, C10 -/

/-- Token with payload `{"exp":1000000000}`. -/
def tokC5 : List Char :=
  mkToken ("h".toList) (serializeClaims [(expKey, JsonVal.num 1000000000)])
    ("s".toList)

/-- Token with payload `{"exp":253402300800}` (year 10000, just past the
formatter's representable range). -/
def tokBig : List Char :=
  mkToken ("h".toList) (serializeClaims [(expKey, JsonVal.num 253402300800)])
    ("s".toList)

/-- Token with an empty payload object (no `exp` claim). -/
def tokNoExp : List Char :=
  mkToken ("x".toList) (serializeClaims []) ("y".toList)

/-- C5 (counterexample): a well-formed token whose integer `exp` is
253402300800 (the instant 10000-01-01, one second past year 9999) makes
`is_token_expired` raise `ValueError` from `datetime.utcfromtimestamp`
rather than return true or false, so the claim does not hold for every
integer `exp`. -/
theorem c5_exp_out_of_range_cex :
    _decode_jwt tokBig = .ok (.obj [(expKey, JsonVal.num 253402300800)]) ∧
    dictGet [(expKey, JsonVal.num 253402300800)] expKey =
      some (JsonVal.num 253402300800) ∧
    is_token_expired (some tokBig) 1700000000 = .error .valueError := by
  refine ⟨by decide, by decide, by decide⟩

/-- C5 (amended): `is_token_expired` returns `None` for a `None` token;
for every well-formed token whose payload is a claims map with an integer
`exp` claim within the representable range (`exp < 253402300800`, i.e.
before year 10000) and current time in the same range, it returns true iff
the instant `exp` is strictly earlier than the current instant at second
granularity (the code compares the `'YYYY-MM-DD HH:MM:SS'` strings
lexicographically, which the formatting lemmas show is equivalent to
second-truncated comparison). -/
theorem c5_expiry_comparison (tok : List Char) (claims : Claims) (e now : Nat)
    (hdec : _decode_jwt tok = .ok (.obj claims))
    (hexp : dictGet claims expKey = some (.num e))
    (he : e < maxTs) (hnow : now < maxTs) :
    is_token_expired none now = .ok none ∧
    is_token_expired (some tok) now = .ok (some (decide (e < now))) := by
  constructor
  · rfl
  · simp only [is_token_expired, hdec, hexp]
    exact compare_correct e now he hnow

/-- C5 (witness). -/
theorem c5_expiry_comparison_witness :
    _decode_jwt tokC5 = .ok (.obj [(expKey, JsonVal.num 1000000000)]) ∧
    dictGet [(expKey, JsonVal.num 1000000000)] expKey =
      some (JsonVal.num 1000000000) ∧
    1000000000 < maxTs ∧ 1700000000 < maxTs ∧
    (is_token_expired none 1700000000 = .ok none ∧
     is_token_expired (some tokC5) 1700000000 =
       .ok (some (decide (1000000000 < 1700000000)))) :=
  ⟨by decide, by decide, by decide, by decide,
   c5_expiry_comparison tokC5 [(expKey, JsonVal.num 1000000000)] 1000000000
     1700000000 (by decide) (by decide) (by decide) (by decide)⟩

/-- C6 (counterexample): on the well-formed token `"x.e30.y"` (payload `{}`,
no `exp` claim) `is_token_expired` raises the builtin `TypeError` — from
passing `None` into `datetime.utcfromtimestamp` — not a dedicated
`MissingExpiryClaimError`: no such error kind exists in the code, which has
only `OAuthError` plus raw builtin/`requests` exceptions. -/
theorem c6_missing_exp_type_error_cex :
    _decode_jwt tokNoExp = .ok (.obj []) ∧
    is_token_expired (some tokNoExp) 1700000000 = .error .typeError := by
  refine ⟨by decide, by decide⟩

/-- C6 (amended): for every non-null well-formed token whose decoded payload
is a (JSON-object) claims map containing no `exp` claim, `is_token_expired`
does fail rather than silently return a value — but with the raw builtin
`TypeError` (from `datetime.utcfromtimestamp(None)`), not a dedicated
`MissingExpiryClaimError`. -/
theorem c6_missing_exp_raises (tok : List Char) (claims : Claims) (now : Nat)
    (hdec : _decode_jwt tok = .ok (.obj claims))
    (hexp : dictGet claims expKey = none) :
    is_token_expired (some tok) now = .error .typeError := by
  simp only [is_token_expired, hdec, hexp]

/-- C6 (witness). -/
theorem c6_missing_exp_raises_witness :
    _decode_jwt tokNoExp = .ok (.obj []) ∧
    dictGet [] expKey = none ∧
    is_token_expired (some tokNoExp) 1700000000 = .error .typeError :=
  ⟨by decide, rfl, c6_missing_exp_raises tokNoExp [] 1700000000 (by decide) rfl⟩

/-- C10: the two comparison branches of `_compare_timestamp_with_current`
(`decoded < current` and `decoded >= current` on the formatted strings) are
exhaustive — the implicit Python fall-through returning `None` is
unreachable for every integer timestamp — and consequently
`is_token_expired` on a non-null well-formed token whose payload holds an
integer `exp` never returns an implicit `None`. -/
theorem c10_compare_exhaustive :
    (∀ t now, _compare_timestamp_with_current t now ≠ .ok none) ∧
    (∀ (tok : List Char) (claims : Claims) (e now : Nat),
        _decode_jwt tok = .ok (.obj claims) →
        dictGet claims expKey = some (.num e) →
        is_token_expired (some tok) now ≠ .ok none) := by
  constructor
  · exact compare_never_fallthrough
  · intro tok claims e now hdec hexp
    simp only [is_token_expired, hdec, hexp]
    exact compare_never_fallthrough e now

/-- C10 (witness). -/
theorem c10_compare_exhaustive_witness :
    _compare_timestamp_with_current 5 9 ≠ .ok none ∧
    (_decode_jwt tokC5 = .ok (.obj [(expKey, JsonVal.num 1000000000)]) ∧
     dictGet [(expKey, JsonVal.num 1000000000)] expKey =
       some (JsonVal.num 1000000000) ∧
     is_token_expired (some tokC5) 7 ≠ .ok none) :=
  ⟨c10_compare_exhaustive.1 5 9,
   by decide, by decide,
   c10_compare_exhaustive.2 tokC5 [(expKey, JsonVal.num 1000000000)]
     1000000000 7 (by decide) (by decide)⟩

/-- C7 (witness). -/
theorem c7_decode_jwt_roundtrip_witness :
    ('.' ∉ ("hdr".toList)) ∧ ('.' ∉ ("sig".toList)) ∧
    claimsClean [(expKey, JsonVal.num 1000000000)] = true ∧
    (([(expKey, JsonVal.num 1000000000)] : Claims).map Prod.fst).Nodup ∧
    _decode_jwt (mkToken ("hdr".toList)
        (serializeClaims [(expKey, JsonVal.num 1000000000)]) ("sig".toList)) =
      .ok (.obj [(expKey, JsonVal.num 1000000000)]) ∧
    (splitDot ("nodots".toList)).length ≠ 3 ∧
    _decode_jwt ("nodots".toList) = .error .valueError :=
  ⟨by decide, by decide, by decide, by decide,
   c7_decode_jwt_roundtrip.1 ("hdr".toList) ("sig".toList)
     [(expKey, JsonVal.num 1000000000)] (by decide) (by decide) (by decide)
     (by decide),
   by decide,
   c7_decode_jwt_roundtrip.2.1 ("nodots".toList) (by decide)⟩
